import Mathlib

/-!
Verification development for the Mermaid-flowchart editor engine
(single-file Python application).  The definitions below are a shallow
embedding of the graph model, parser, generator, repair passes, cycle
detection and undo history of the source file, translated function by
function.  Display-only attributes (CSS styles, markers, handle
positions, selection highlights) are omitted; every field that any
claim observes is modelled.
-/

/- ===================== Python string primitives ===================== -/

/-- Python whitespace class (ASCII part), as used by str.strip, str.split
and the regex class backslash-s on the ASCII inputs of this program. -/
def pyIsWs (c : Char) : Bool :=
  c = ' ' ∨ c = '\t' ∨ c = '\n' ∨ c = '\r' ∨ c = '\x0b' ∨ c = '\x0c'

def trimLeftC (cs : List Char) : List Char := cs.dropWhile pyIsWs

def trimRightC (cs : List Char) : List Char := (cs.reverse.dropWhile pyIsWs).reverse

def trimC (cs : List Char) : List Char := trimRightC (trimLeftC cs)

/-- Python str.strip(). -/
def pyStrip (s : String) : String := ⟨trimC s.data⟩

/-- Python str.lower() restricted to the characters this program works
with: ASCII letters and the Turkish letters appearing in its string
literals.  The dotted capital I lowers to "i" plus a combining dot,
as in CPython. -/
def lowerChar (c : Char) : List Char :=
  if 'A' ≤ c ∧ c ≤ 'Z' then [Char.ofNat (c.toNat + 32)]
  else if c = 'Ç' then ['ç']
  else if c = 'Ğ' then ['ğ']
  else if c = 'İ' then ['i', '̇']
  else if c = 'Ö' then ['ö']
  else if c = 'Ş' then ['ş']
  else if c = 'Ü' then ['ü']
  else [c]

def pyLower (s : String) : String := ⟨(s.data.map lowerChar).flatten⟩

/-- Python str.upper() restricted likewise. -/
def upperChar (c : Char) : Char :=
  if 'a' ≤ c ∧ c ≤ 'z' then Char.ofNat (c.toNat - 32)
  else if c = 'ç' then 'Ç'
  else if c = 'ğ' then 'Ğ'
  else if c = 'ö' then 'Ö'
  else if c = 'ş' then 'Ş'
  else if c = 'ü' then 'Ü'
  else if c = 'ı' then 'I'
  else c

def pyUpper (s : String) : String := ⟨s.data.map upperChar⟩

/-- Python substring test: needle in haystack. -/
def pyIn (needle hay : String) : Bool :=
  hay.data.tails.any (fun t => needle.data.isPrefixOf t)

/-- Python str.replace (leftmost, non-overlapping).  The fuel is the
length of the scanned list, which bounds the number of scan steps. -/
def replaceFuel (pat rep : List Char) : Nat → List Char → List Char
  | 0, cs => cs
  | _, [] => []
  | fuel + 1, c :: rest =>
    if pat.isPrefixOf (c :: rest) then
      rep ++ replaceFuel pat rep fuel ((c :: rest).drop pat.length)
    else
      c :: replaceFuel pat rep fuel rest

def pyReplace (s pat rep : String) : String :=
  ⟨replaceFuel pat.data rep.data s.data.length s.data⟩

def wsToSpace (c : Char) : Char := if pyIsWs c then ' ' else c

def dropDupSpace : List Char → List Char
  | [] => []
  | [a] => [a]
  | a :: b :: t =>
    if a = ' ' ∧ b = ' ' then dropDupSpace (b :: t) else a :: dropDupSpace (b :: t)

/-- The regex substitution collapsing whitespace runs to one space. -/
def collapseWs (s : String) : String := ⟨dropDupSpace (s.data.map wsToSpace)⟩

/-- Python string comparison: code-point lexicographic. -/
def lexLt : List Char → List Char → Bool
  | [], [] => false
  | [], _ :: _ => true
  | _ :: _, [] => false
  | a :: as, b :: bs =>
    if a.toNat < b.toNat then true
    else if b.toNat < a.toNat then false
    else lexLt as bs

def pyStrLt (a b : String) : Bool := lexLt a.data b.data

def pyStrLe (a b : String) : Bool := ¬ pyStrLt b a

/-- Stable insertion used by the sort below: an element is placed before
the first element it compares le to, which keeps the original order of
equal keys (Python sorted is stable). -/
def insertLe (le : α → α → Bool) (a : α) : List α → List α
  | [] => [a]
  | b :: t => if le a b then a :: b :: t else b :: insertLe le a t

def sortLe (le : α → α → Bool) : List α → List α
  | [] => []
  | a :: t => insertLe le a (sortLe le t)

/-- Python str.splitlines restricted to newline separators (the only
line separator occurring in this program's texts).  A trailing newline
produces one extra empty line here; the parser skips blank lines, so
behaviour is unchanged. -/
def splitNl : List Char → List (List Char)
  | [] => [[]]
  | c :: t =>
    if c = '\n' then [] :: splitNl t
    else
      match splitNl t with
      | h :: r => (c :: h) :: r
      | [] => [[c]]

/-- Python str.split() with no argument: whitespace-run separated,
no empty tokens. -/
def splitWsF : Nat → List Char → List (List Char)
  | 0, _ => []
  | fuel + 1, cs =>
    let cs1 := cs.dropWhile pyIsWs
    if cs1 = [] then []
    else
      (cs1.takeWhile (fun c => ¬ pyIsWs c)) ::
        splitWsF fuel (cs1.dropWhile (fun c => ¬ pyIsWs c))

def pySplitWs (s : String) : List String :=
  (splitWsF (s.data.length + 1) s.data).map (fun cs => (⟨cs⟩ : String))

def joinWithSpace : List String → String
  | [] => ""
  | [a] => a
  | a :: b :: t => a ++ " " ++ joinWithSpace (b :: t)

/-- Literal brace characters (written via code points to keep strings
free of raw braces). -/
def lbrace : Char := Char.ofNat 123

def rbrace : Char := Char.ofNat 125

def lbraceS : String := ⟨[lbrace]⟩

def rbraceS : String := ⟨[rbrace]⟩

/- ===================== MD5 (hashlib.md5) ===================== -/

/-- UTF-8 encoding of one character, as bytes (Nat < 256). -/
def utf8Char (c : Char) : List Nat :=
  let n := c.toNat
  if n < 128 then [n]
  else if n < 2048 then [192 + n / 64, 128 + n % 64]
  else if n < 65536 then [224 + n / 4096, 128 + (n / 64) % 64, 128 + n % 64]
  else [240 + n / 262144, 128 + (n / 4096) % 64, 128 + (n / 64) % 64, 128 + n % 64]

def utf8Bytes (s : String) : List Nat := (s.data.map utf8Char).flatten

def m32 : Nat := 4294967296

def add32 (a b : Nat) : Nat := (a + b) % m32

def not32 (a : Nat) : Nat := (m32 - 1) - a % m32

def rotl32 (a s : Nat) : Nat := ((a <<< s) % m32) + (a % m32) >>> (32 - s)

/-- Per-round shift amounts of MD5. -/
def md5S (i : Nat) : Nat :=
  let tbl : List Nat :=
    [7, 12, 17, 22, 7, 12, 17, 22, 7, 12, 17, 22, 7, 12, 17, 22,
     5, 9, 14, 20, 5, 9, 14, 20, 5, 9, 14, 20, 5, 9, 14, 20,
     4, 11, 16, 23, 4, 11, 16, 23, 4, 11, 16, 23, 4, 11, 16, 23,
     6, 10, 15, 21, 6, 10, 15, 21, 6, 10, 15, 21, 6, 10, 15, 21]
  tbl.getD i 0

/-- Round constants of MD5 (floor of 2^32 times the absolute sine table). -/
def md5K (i : Nat) : Nat :=
  let tbl : List Nat :=
    [0xd76aa478, 0xe8c7b756, 0x242070db, 0xc1bdceee,
     0xf57c0faf, 0x4787c62a, 0xa8304613, 0xfd469501,
     0x698098d8, 0x8b44f7af, 0xffff5bb1, 0x895cd7be,
     0x6b901122, 0xfd987193, 0xa679438e, 0x49b40821,
     0xf61e2562, 0xc040b340, 0x265e5a51, 0xe9b6c7aa,
     0xd62f105d, 0x02441453, 0xd8a1e681, 0xe7d3fbc8,
     0x21e1cde6, 0xc33707d6, 0xf4d50d87, 0x455a14ed,
     0xa9e3e905, 0xfcefa3f8, 0x676f02d9, 0x8d2a4c8a,
     0xfffa3942, 0x8771f681, 0x6d9d6122, 0xfde5380c,
     0xa4beea44, 0x4bdecfa9, 0xf6bb4b60, 0xbebfbc70,
     0x289b7ec6, 0xeaa127fa, 0xd4ef3085, 0x04881d05,
     0xd9d4d039, 0xe6db99e5, 0x1fa27cf8, 0xc4ac5665,
     0xf4292244, 0x432aff97, 0xab9423a7, 0xfc93a039,
     0x655b59c3, 0x8f0ccc92, 0xffeff47d, 0x85845dd1,
     0x6fa87e4f, 0xfe2ce6e0, 0xa3014314, 0x4e0811a1,
     0xf7537e82, 0xbd3af235, 0x2ad7d2bb, 0xeb86d391]
  tbl.getD i 0

def md5Pad (msg : List Nat) : List Nat :=
  let len := msg.length
  let k := (119 - len % 64) % 64
  let bitLen := 8 * len
  msg ++ [128] ++ List.replicate k 0 ++
    (List.range 8).map (fun i => (bitLen >>> (8 * i)) % 256)

def leWord (b : List Nat) : Nat :=
  b.getD 0 0 + 256 * b.getD 1 0 + 65536 * b.getD 2 0 + 16777216 * b.getD 3 0

def blockWords (blk : List Nat) : List Nat :=
  (List.range 16).map (fun j => leWord ((blk.drop (4 * j)).take 4))

def md5Round (w : List Nat) (st : Nat × Nat × Nat × Nat) (i : Nat) :
    Nat × Nat × Nat × Nat :=
  let (a, b, c, d) := st
  let f :=
    if i < 16 then (b &&& c) ||| (not32 b &&& d)
    else if i < 32 then (d &&& b) ||| (not32 d &&& c)
    else if i < 48 then b ^^^ c ^^^ d
    else c ^^^ (b ||| not32 d)
  let g :=
    if i < 16 then i
    else if i < 32 then (5 * i + 1) % 16
    else if i < 48 then (3 * i + 5) % 16
    else (7 * i) % 16
  let b2 := add32 b (rotl32 (add32 (add32 a f) (add32 (md5K i) (w.getD g 0))) (md5S i))
  (d, b2, b, c)

def md5Block (st : Nat × Nat × Nat × Nat) (blk : List Nat) : Nat × Nat × Nat × Nat :=
  let w := blockWords blk
  let (a, b, c, d) := (List.range 64).foldl (md5Round w) st
  let (a0, b0, c0, d0) := st
  (add32 a0 a, add32 b0 b, add32 c0 c, add32 d0 d)

def chunks64 : Nat → List Nat → List (List Nat)
  | 0, _ => []
  | _, [] => []
  | fuel + 1, l => l.take 64 :: chunks64 fuel (l.drop 64)

def hexDigit (n : Nat) : Char := "0123456789abcdef".data.getD n '0'

def byteHex (b : Nat) : List Char := [hexDigit (b / 16), hexDigit (b % 16)]

def wordHexLe (w : Nat) : List Char :=
  byteHex (w % 256) ++ byteHex ((w >>> 8) % 256) ++
    byteHex ((w >>> 16) % 256) ++ byteHex ((w >>> 24) % 256)

/-- hashlib.md5(...).hexdigest(): 32 lowercase hex characters. -/
def md5Hex (s : String) : String :=
  let msg := md5Pad (utf8Bytes s)
  let st := (chunks64 (msg.length + 1) msg).foldl md5Block
    (0x67452301, 0xefcdab89, 0x98badcfe, 0x10325476)
  let (a, b, c, d) := st
  ⟨wordHexLe a ++ wordHexLe b ++ wordHexLe c ++ wordHexLe d⟩

/- ===================== Graph data model ===================== -/

/-- Node of the editor graph.  The source stores label and kind inside
node.data and a markdown rendering in data.content; styles and handle
positions are display-only and omitted. -/
structure StreamlitFlowNode where
  id : String
  label : String
  kind : String
  pos : Nat × Nat
  content : String
deriving DecidableEq, Repr

/-- Edge of the editor graph.  The variant lives in edge.data in the
source; styles and markers are display-only and omitted. -/
structure StreamlitFlowEdge where
  id : String
  source : String
  target : String
  label : String
  edgeType : String
  variant : String
deriving DecidableEq, Repr

structure StreamlitFlowState where
  nodes : List StreamlitFlowNode
  edges : List StreamlitFlowEdge
deriving DecidableEq, Repr

/-- Keys of the NODE_KIND table, in source order. -/
def nodeKindKeys : List String :=
  ["terminal", "process", "decision", "io", "document", "multi_document",
   "data_storage", "internal_storage", "tape_data", "subprocess", "database",
   "display", "manual_operation", "merge", "manual_input", "connector",
   "comment", "loop", "function"]

/-- The icon entry of NODE_KIND (used by node_markdown); unknown kinds
fall back to the process icon as in the source lookups. -/
def nodeKindIcon (kind : String) : String :=
  if kind = "terminal" then "⏺️"
  else if kind = "process" then "⚙️"
  else if kind = "decision" then "❓"
  else if kind = "io" then "⌨️"
  else if kind = "document" then "📄"
  else if kind = "multi_document" then "📑"
  else if kind = "data_storage" then "🗃️"
  else if kind = "internal_storage" then "🧠"
  else if kind = "tape_data" then "📼"
  else if kind = "subprocess" then "🧩"
  else if kind = "database" then "🗄️"
  else if kind = "display" then "🖥️"
  else if kind = "manual_operation" then "✋"
  else if kind = "merge" then "🔻"
  else if kind = "manual_input" then "✍️"
  else if kind = "connector" then "🔗"
  else if kind = "comment" then "📝"
  else if kind = "loop" then "🔁"
  else if kind = "function" then "🧠"
  else "⚙️"

def node_markdown (label kind : String) : String :=
  pyStrip ("**" ++ nodeKindIcon kind ++ " " ++ label ++ "**")

def EDGE_VARIANT_TO_ARROW (v : String) : String :=
  if v = "solid" then "-->"
  else if v = "dotted" then "-.->"
  else if v = "thick" then "==>"
  else if v = "circle" then "--o"
  else if v = "cross" then "--x"
  else "-->"

/-- ARROW_TO_EDGE_VARIANT.get(arrow, "solid"): the bidirectional arrow
is not a key of the inverted dict, so it yields the default. -/
def ARROW_TO_EDGE_VARIANT (arrow : String) : String :=
  if arrow = "-->" then "solid"
  else if arrow = "-.->" then "dotted"
  else if arrow = "==>" then "thick"
  else if arrow = "--o" then "circle"
  else if arrow = "--x" then "cross"
  else "solid"

/-- build_edge_id: md5 of "source|target|label|variant|salt", first 8 hex
characters, wrapped as e_hash_source_target. -/
def build_edge_id (source target label variant : String) (salt : String := "") : String :=
  let base := source ++ "|" ++ target ++ "|" ++ label ++ "|" ++ variant ++ "|" ++ salt
  "e_" ++ ⟨(md5Hex base).data.take 8⟩ ++ "_" ++ source ++ "_" ++ target

def make_node (nodeId label kind : String) (pos : Nat × Nat) : StreamlitFlowNode :=
  { id := nodeId, label := label, kind := kind, pos := pos,
    content := node_markdown label kind }

def make_edge (edgeId source target : String) (label : String := "")
    (edgeType : String := "smoothstep") (variant : String := "solid") :
    StreamlitFlowEdge :=
  { id := edgeId, source := source, target := target, label := label,
    edgeType := edgeType, variant := variant }

/-- get_node_label: data.label, falling back to the content markdown with
the bold markers removed. -/
def get_node_label (n : StreamlitFlowNode) : String :=
  if n.label ≠ "" then n.label else pyStrip (pyReplace n.content "**" "")

def get_node_kind (n : StreamlitFlowNode) : String :=
  if n.kind = "" then "process" else n.kind

def get_edge_label (e : StreamlitFlowEdge) : String := e.label

def get_edge_variant (e : StreamlitFlowEdge) : String :=
  if e.variant = "" then "solid" else e.variant

/-- normalize_state, restricted to the modelled fields: kind defaults to
process, an empty label falls back to content and then to the id, and
the content markdown is recomputed.  The remaining work of the source
function only rebuilds styles, handles and selection highlights. -/
def normalizeNode (n : StreamlitFlowNode) : StreamlitFlowNode :=
  let kind := if n.kind = "" then "process" else n.kind
  let label := if n.label ≠ "" then n.label
    else if n.content ≠ "" then n.content else n.id
  { n with kind := kind, label := label, content := node_markdown label kind }

def normalize_state (s : StreamlitFlowState) : StreamlitFlowState :=
  { nodes := s.nodes.map normalizeNode, edges := s.edges }

/- ===================== Label escaping and generation ===================== -/

/-- Characters removed by the bracket-stripping substitution of
mermaid_escape_label. -/
def isBracketChar (c : Char) : Bool :=
  c = '[' ∨ c = ']' ∨ c = '(' ∨ c = ')' ∨ c = lbrace ∨ c = rbrace

/-- The arrow substitution of mermaid_escape_label.  The third
alternative of the source pattern is written with a double backslash,
so it matches a dash, a literal backslash, any character, a dash and a
greater-than sign (not the dotted arrow); the plain "->" replacement
afterwards still neutralises dotted arrows. -/
def escArrowScan : Nat → List Char → List Char
  | 0, cs => cs
  | _, [] => []
  | fuel + 1, c :: rest =>
    let cs := c :: rest
    if "-->".data.isPrefixOf cs then '→' :: escArrowScan fuel (cs.drop 3)
    else if "==>".data.isPrefixOf cs then '→' :: escArrowScan fuel (cs.drop 3)
    else if (match cs with
             | '-' :: '\\' :: _ :: '-' :: '>' :: _ => true
             | _ => false) then '→' :: escArrowScan fuel (cs.drop 5)
    else if "--o".data.isPrefixOf cs then '→' :: escArrowScan fuel (cs.drop 3)
    else if "--x".data.isPrefixOf cs then '→' :: escArrowScan fuel (cs.drop 3)
    else c :: escArrowScan fuel rest

def mermaid_escape_label (label : String) : String :=
  let s := pyReplace (pyReplace label "\n" " ") "\r" " "
  let s := pyReplace s "|" "/"
  let s : String := ⟨s.data.filter (fun c => ¬ isBracketChar c)⟩
  let s : String := ⟨escArrowScan s.data.length s.data⟩
  let s := pyReplace (pyReplace s "->" "→") "<-" "←"
  pyStrip (collapseWs s)

/-- The arrow deletion of sanitize_export_label (ordered alternation,
including the bidirectional and the bare half arrows). -/
def sanArrowScan : Nat → List Char → List Char
  | 0, cs => cs
  | _, [] => []
  | fuel + 1, c :: rest =>
    let cs := c :: rest
    if "-->".data.isPrefixOf cs then sanArrowScan fuel (cs.drop 3)
    else if "==>".data.isPrefixOf cs then sanArrowScan fuel (cs.drop 3)
    else if (match cs with
             | '-' :: '\\' :: _ :: '-' :: '>' :: _ => true
             | _ => false) then sanArrowScan fuel (cs.drop 5)
    else if "--o".data.isPrefixOf cs then sanArrowScan fuel (cs.drop 3)
    else if "--x".data.isPrefixOf cs then sanArrowScan fuel (cs.drop 3)
    else if "<-->".data.isPrefixOf cs then sanArrowScan fuel (cs.drop 4)
    else if "->".data.isPrefixOf cs then sanArrowScan fuel (cs.drop 2)
    else if "<-".data.isPrefixOf cs then sanArrowScan fuel (cs.drop 2)
    else c :: sanArrowScan fuel rest

def isTurkishLetter (c : Char) : Bool :=
  c = 'Ç' ∨ c = 'Ğ' ∨ c = 'İ' ∨ c = 'Ö' ∨ c = 'Ş' ∨ c = 'Ü' ∨
  c = 'ç' ∨ c = 'ğ' ∨ c = 'ı' ∨ c = 'ö' ∨ c = 'ş' ∨ c = 'ü'

/-- The character class kept by the final substitution of
sanitize_export_label.  In the source the class is written with a
double backslash, so it contains a literal backslash and the letter s
rather than the whitespace class: spaces are therefore removed. -/
def exportKeepChar (c : Char) : Bool :=
  c.isAlphanum ∨ isTurkishLetter c ∨ c = '\\' ∨
  c = '.' ∨ c = ',' ∨ c = ';' ∨ c = ':' ∨ c = '!' ∨ c = '?' ∨
  c = '+' ∨ c = '*' ∨ c = '/' ∨ c = '=' ∨ c = '%' ∨ c = '-'

def isBracketAngleChar (c : Char) : Bool :=
  isBracketChar c ∨ c = '<' ∨ c = '>'

def isQuoteChar (c : Char) : Bool :=
  c = '`' ∨ c = '"' ∨ c = '\''

def sanitize_export_label (label : String) (fallback : String := "") : String :=
  let s := pyStrip (pyReplace (pyReplace label "\n" " ") "\r" " ")
  let s := pyReplace s "|" "/"
  let s : String := ⟨s.data.filter (fun c => ¬ isBracketAngleChar c)⟩
  let s : String := ⟨sanArrowScan s.data.length s.data⟩
  let s := pyReplace (pyReplace s "→" "") "←" ""
  let s : String := ⟨s.data.filter (fun c => ¬ isQuoteChar c)⟩
  let s : String := ⟨s.data.filter exportKeepChar⟩
  let s := pyStrip (collapseWs s)
  if s = "" ∧ fallback ≠ "" then fallback else s

/-- MERMAID_NODE_TEMPLATES with the default lookup falling back to the
process template. -/
def mermaidNodeTemplate (kind nodeId label : String) : String :=
  if kind = "terminal" then nodeId ++ "([ " ++ label ++ " ])"
  else if kind = "io" then nodeId ++ "[/ " ++ label ++ " /]"
  else if kind = "decision" then nodeId ++ lbraceS ++ label ++ rbraceS
  else if kind = "document" then nodeId ++ "[" ++ label ++ "]:::document"
  else if kind = "multi_document" then nodeId ++ "[" ++ label ++ "]:::multi_document"
  else if kind = "data_storage" then nodeId ++ "[( " ++ label ++ " )]:::data_storage"
  else if kind = "internal_storage" then nodeId ++ "[" ++ label ++ "]:::internal_storage"
  else if kind = "tape_data" then nodeId ++ "[" ++ label ++ "]:::tape_data"
  else if kind = "display" then nodeId ++ "[" ++ label ++ "]:::display"
  else if kind = "manual_operation" then nodeId ++ "[" ++ label ++ "]:::manual_operation"
  else if kind = "merge" then nodeId ++ "[" ++ label ++ "]:::merge"
  else if kind = "manual_input" then nodeId ++ "[/ " ++ label ++ " /]:::manual_input"
  else if kind = "subprocess" then nodeId ++ "[[" ++ label ++ "]]"
  else if kind = "database" then nodeId ++ "[( " ++ label ++ " )]"
  else if kind = "connector" then nodeId ++ "((" ++ label ++ "))"
  else if kind = "comment" then nodeId ++ "[" ++ label ++ "]:::comment"
  else if kind = "loop" then nodeId ++ lbraceS ++ label ++ rbraceS ++ ":::loop"
  else if kind = "function" then nodeId ++ "[[" ++ label ++ "]]:::function"
  else nodeId ++ "[" ++ label ++ "]"

/-- EXPORT_NODE_TEMPLATES with the default lookup falling back to the
process template. -/
def exportNodeTemplate (kind nodeId label : String) : String :=
  if kind = "terminal" then nodeId ++ "([ " ++ label ++ " ])"
  else if kind = "io" then nodeId ++ "[/ " ++ label ++ " /]"
  else if kind = "decision" then nodeId ++ lbraceS ++ label ++ rbraceS
  else if kind = "data_storage" then nodeId ++ "[( " ++ label ++ " )]"
  else if kind = "manual_input" then nodeId ++ "[/ " ++ label ++ " /]"
  else if kind = "subprocess" then nodeId ++ "[[" ++ label ++ "]]"
  else if kind = "database" then nodeId ++ "[( " ++ label ++ " )]"
  else if kind = "connector" then nodeId ++ "((" ++ label ++ "))"
  else if kind = "loop" then nodeId ++ lbraceS ++ label ++ rbraceS
  else if kind = "function" then nodeId ++ "[[" ++ label ++ "]]"
  else nodeId ++ "[" ++ label ++ "]"

def node_to_mermaid (n : StreamlitFlowNode) : String :=
  let base := get_node_label n
  let label := mermaid_escape_label (if base ≠ "" then base else n.id)
  mermaidNodeTemplate (get_node_kind n) n.id label

/-- Key order of the generator edge sort: (source, target, id). -/
def edgeSortLe (a b : StreamlitFlowEdge) : Bool :=
  if a.source ≠ b.source then pyStrLe a.source b.source
  else if a.target ≠ b.target then pyStrLe a.target b.target
  else pyStrLe a.id b.id

def generate_mermaid (s : StreamlitFlowState) (direction : String) : String :=
  let dir := pyUpper (if direction = "" then "TD" else direction)
  let header := "flowchart " ++ dir
  let nodeLines := (sortLe (fun a b => pyStrLe a.id b.id) s.nodes).map
    (fun n => "    " ++ node_to_mermaid n)
  let edgeLines := (sortLe edgeSortLe s.edges).map (fun e =>
    let lbl := mermaid_escape_label (get_edge_label e)
    let arrow := EDGE_VARIANT_TO_ARROW (get_edge_variant e)
    if lbl ≠ "" then
      "    " ++ e.source ++ " " ++ arrow ++ "|" ++ lbl ++ "| " ++ e.target
    else
      "    " ++ e.source ++ " " ++ arrow ++ " " ++ e.target)
  String.intercalate "\n" (header :: (nodeLines ++ edgeLines))

/-- The export id map n.id -> n(i+1) over the id-sorted node list; a
duplicated id keeps the last assignment, as a Python dict comprehension
does. -/
def exportIdOf (sorted : List StreamlitFlowNode) (nid : String) : String :=
  match (sorted.enum.reverse.find? (fun p => p.2.id = nid)) with
  | some (i, _) => "n" ++ toString (i + 1)
  | none => nid

def generate_mermaid_for_export (s : StreamlitFlowState) (direction : String) : String :=
  let dir0 := pyUpper (if direction = "" then "TD" else direction)
  let dir := if dir0 = "TD" ∨ dir0 = "TB" ∨ dir0 = "LR" ∨ dir0 = "RL" ∨ dir0 = "BT"
    then dir0 else "TD"
  let header := "flowchart " ++ dir
  let nodesSorted := sortLe (fun a b => pyStrLe a.id b.id) s.nodes
  let nodeLines := nodesSorted.map (fun n =>
    let safeId := exportIdOf nodesSorted n.id
    let base := get_node_label n
    let label := sanitize_export_label (if base ≠ "" then base else safeId) safeId
    "    " ++ exportNodeTemplate (get_node_kind n) safeId label)
  let edgeLines := (sortLe edgeSortLe s.edges).map (fun e =>
    let src := exportIdOf nodesSorted e.source
    let tgt := exportIdOf nodesSorted e.target
    let lbl := sanitize_export_label (get_edge_label e)
    let arrow := EDGE_VARIANT_TO_ARROW (get_edge_variant e)
    if lbl ≠ "" then
      "    " ++ src ++ " " ++ arrow ++ "|" ++ lbl ++ "| " ++ tgt
    else
      "    " ++ src ++ " " ++ arrow ++ " " ++ tgt)
  String.intercalate "\n" (header :: (nodeLines ++ edgeLines))

/- ===================== Token grammar and parser ===================== -/

/-- The id character class of the node regexes. -/
def isIdChar (c : Char) : Bool := c.isAlphanum ∨ c = '_' ∨ c = '-'

inductive PyExn where
  | indexError
deriving DecidableEq, Repr

/-- Scan for the trailing kind-override pattern: three colons followed by
an id run and then only whitespace up to the end.  re.search finds the
leftmost such position; as the kind run cannot contain a colon, at most
one position matches. -/
def overrideAt (cs : List Char) (i : Nat) : Option String :=
  if ":::".data.isPrefixOf (cs.drop i) then
    let after := cs.drop (i + 3)
    let run := after.takeWhile isIdChar
    if run ≠ [] ∧ (after.drop run.length).all pyIsWs then some ⟨run⟩ else none
  else none

def firstSomeNat (g : Nat → Option β) : List Nat → Option β
  | [] => none
  | p :: ps => match g p with
    | some r => some r
    | none => firstSomeNat g ps

def stripKindOverride (cs : List Char) : Option String × List Char :=
  match firstSomeNat (fun i => (overrideAt cs i).map (fun k => (i, k)))
      (List.range cs.length) with
  | some (i, k) => (some k, trimC (cs.take i))
  | none => (none, cs)

/-- One shape alternative of split_node_token: a greedy id run, optional
whitespace, the opening delimiter, a lazily matched label and the
closing delimiter anchored at the end (trailing whitespace allowed).
The anchoring means the closing delimiter is the final one, and the
label group comes out stripped because of the greedy whitespace around
the lazy group. -/
def matchShape (openD closeD : List Char) (cs : List Char) : Option (String × String) :=
  let idcs := cs.takeWhile isIdChar
  if idcs = [] then none
  else
    let rest := (cs.drop idcs.length).dropWhile pyIsWs
    if openD.isPrefixOf rest then
      let inner := trimRightC (rest.drop openD.length)
      if closeD.isSuffixOf inner then
        some (⟨idcs⟩, ⟨trimC (inner.take (inner.length - closeD.length))⟩)
      else none
    else none

def matchBareId (cs : List Char) : Option String :=
  let idcs := cs.takeWhile isIdChar
  if idcs ≠ [] ∧ (cs.drop idcs.length).all pyIsWs then some ⟨idcs⟩ else none

/-- split_node_token: resolves a node expression to (id, label, kind).
The final fallback indexes parts[0] of a whitespace split, which raises
IndexError when the remaining text is empty. -/
def split_node_token (token : String) : Except PyExn (String × String × String) :=
  let s0 := trimC token.data
  let (kOv, s) := stripKindOverride s0
  let pick (dflt : String) : String :=
    match kOv with
    | some k => if k ∈ nodeKindKeys then k else dflt
    | none => dflt
  match matchShape "([".data "])".data s with
  | some (i, l) => .ok (i, l, pick "terminal")
  | none =>
  match matchShape "((".data "))".data s with
  | some (i, l) => .ok (i, l, pick "connector")
  | none =>
  match matchShape "[[".data "]]".data s with
  | some (i, l) => .ok (i, l, pick "subprocess")
  | none =>
  match matchShape "[(".data ")]".data s with
  | some (i, l) => .ok (i, l, pick "database")
  | none =>
  match matchShape "[/".data "/]".data s with
  | some (i, l) => .ok (i, l, pick "io")
  | none =>
  match matchShape [lbrace] [rbrace] s with
  | some (i, l) => .ok (i, l, pick "decision")
  | none =>
  match matchShape "[".data "]".data s with
  | some (i, l) => .ok (i, l, pick "process")
  | none =>
  match matchShape "(".data ")".data s with
  | some (i, l) => .ok (i, l, pick "process")
  | none =>
  match matchBareId s with
  | some i => .ok (i, i, pick "process")
  | none =>
    match pySplitWs ⟨s⟩ with
    | [] => .error .indexError
    | p0 :: rest =>
      .ok (p0, (if rest ≠ [] then joinWithSpace rest else p0), pick "process")

/-- The arrow alternation of the edge regexes, in source order.  The
alternatives are pairwise non-overlapping at any fixed position. -/
def arrowAt (cs : List Char) : Option String :=
  if "-->".data.isPrefixOf cs then some "-->"
  else if "-.->".data.isPrefixOf cs then some "-.->"
  else if "==>".data.isPrefixOf cs then some "==>"
  else if "--o".data.isPrefixOf cs then some "--o"
  else if "--x".data.isPrefixOf cs then some "--x"
  else if "<-->".data.isPrefixOf cs then some "<-->"
  else none

/-- Tail of EDGE_SIMPLE_RE after the arrow: whitespace, a lazy non-empty
destination group, trailing whitespace.  The match fails only on an
empty remainder; the parser strips the group, so the stripped remainder
is returned directly. -/
def simpleTail (rem : List Char) : Option String :=
  if rem = [] then none else some ⟨trimC rem⟩

/-- Tail of EDGE_WITH_PIPE_LABEL_RE after the arrow: whitespace, a pipe,
a non-empty label without pipes, a pipe, then a non-empty destination.
Groups are returned stripped, as the parser strips them. -/
def pipeTail (rem : List Char) : Option (String × String) :=
  match rem.dropWhile pyIsWs with
  | '|' :: r2 =>
    let content := r2.takeWhile (fun c => c ≠ '|')
    (match r2.drop content.length with
     | '|' :: r3 =>
       if content = [] then none
       else if r3 = [] then none
       else some (⟨trimC content⟩, ⟨trimC r3⟩)
     | _ => none)
  | _ => none

/-- Backtracking of the edge regexes over the source group: the lazy
source grows from the left, so arrow positions are tried left to right
(whitespace positions cannot start an arrow); if no split with the
source starting at the first non-blank character succeeds, the greedy
leading whitespace backtracks once more, allowing the arrow to sit at
the first non-blank position with an all-blank source group. -/
def scanEdge (tailF : List Char → Option τ) (cs : List Char) :
    Option (String × String × τ) :=
  let f := (cs.takeWhile pyIsWs).length
  let tryAt (p : Nat) : Option (String × String × τ) :=
    match arrowAt (cs.drop p) with
    | some a =>
      (tailF (cs.drop (p + a.length))).map (fun t => (⟨trimC (cs.take p)⟩, a, t))
    | none => none
  match firstSomeNat tryAt (List.range' (f + 1) (cs.length - f)) with
  | some r => some r
  | none => if 1 ≤ f then tryAt f else none

def matchEdgeWithPipe (cs : List Char) : Option (String × String × String × String) :=
  (scanEdge pipeTail cs).map (fun (src, a, lbl, dst) => (src, a, lbl, dst))

def matchEdgeSimple (cs : List Char) : Option (String × String × String) :=
  scanEdge simpleTail cs

/-- FLOW_HEADER_RE: optional whitespace, the keyword flowchart or graph
(case-insensitive), whitespace, a direction token, trailing whitespace;
yields the upper-cased direction group. -/
def parseHeader (cs0 : List Char) : Option String :=
  let cs := cs0.dropWhile pyIsWs
  let low := (cs.map lowerChar).flatten
  let afterKw : Option (List Char) :=
    if "flowchart".data.isPrefixOf low then some (cs.drop 9)
    else if "graph".data.isPrefixOf low then some (cs.drop 5)
    else none
  match afterKw with
  | none => none
  | some rest =>
    match rest with
    | c :: _ =>
      if pyIsWs c then
        let rest2 := rest.dropWhile pyIsWs
        let dir : String := pyUpper ⟨rest2.take 2⟩
        if (dir = "TD" ∨ dir = "TB" ∨ dir = "LR" ∨ dir = "RL" ∨ dir = "BT") ∧
            (rest2.drop 2).all pyIsWs then
          some dir
        else none
      else none
    | [] => none

/-- Intermediate parser state: the nodes dict (insertion ordered,
id to (label, kind)), the raw edge tuples and the alias map of
resolve_node_id. -/
structure PState where
  nodes : List (String × String × String)
  edges : List (String × String × String × String)
  aliasMap : List ((String × String × String) × String)
deriving Repr

def pstate0 : PState := { nodes := [], edges := [], aliasMap := [] }

def nodesHasId (ns : List (String × String × String)) (nid : String) : Bool :=
  ns.any (fun e => e.1 = nid)

def aliasLookup (m : List ((String × String × String) × String))
    (key : String × String × String) : Option String :=
  match m with
  | [] => none
  | (k, v) :: t => if k = key then some v else aliasLookup t key

/-- The while loop of resolve_node_id minting nid_2, nid_3, ...; at most
one candidate per existing node can collide, so the fuel of one more
than the node count is never exhausted. -/
def mintId (ns : List (String × String × String)) (nid : String) :
    Nat → Nat → String
  | idx, 0 => nid ++ "_" ++ toString idx
  | idx, fuel + 1 =>
    let cand := nid ++ "_" ++ toString idx
    if nodesHasId ns cand then mintId ns nid (idx + 1) fuel else cand

def resolve_node_id (st : PState) (nid label kind : String) : String × PState :=
  let key := (nid, label, kind)
  match aliasLookup st.aliasMap key with
  | some v => (v, st)
  | none =>
    if ¬ nodesHasId st.nodes nid then
      (nid, { st with aliasMap := st.aliasMap ++ [(key, nid)] })
    else
      let newId := mintId st.nodes nid 2 (st.nodes.length + 1)
      (newId, { st with aliasMap := st.aliasMap ++ [(key, newId)] })

def upsert_node (st : PState) (nid label kind : String) : PState :=
  if nodesHasId st.nodes nid then
    { st with nodes := st.nodes.map (fun e =>
        if e.1 = nid then
          (e.1,
           (if e.2.1 = "" ∧ label ≠ "" then label else e.2.1),
           (if e.2.2 = "" ∧ kind ≠ "" then kind else e.2.2))
        else e) }
  else
    { st with nodes := st.nodes ++ [(nid, label, kind)] }

def addEdgeTuples (st : PState) (src dst lbl variant : String) (bidi : Bool) : PState :=
  if bidi then
    { st with edges := st.edges ++ [(src, dst, lbl, variant), (dst, src, lbl, variant)] }
  else
    { st with edges := st.edges ++ [(src, dst, lbl, variant)] }

def processEdgeTokens (st : PState) (srcTok dstTok lbl arrow : String) :
    Except PyExn PState := do
  let (srcIdRaw, srcLabel, srcKind) ← split_node_token srcTok
  let (dstIdRaw, dstLabel, dstKind) ← split_node_token dstTok
  let (srcId, st) := resolve_node_id st srcIdRaw srcLabel srcKind
  let (dstId, st) := resolve_node_id st dstIdRaw dstLabel dstKind
  let st := upsert_node st srcId srcLabel srcKind
  let st := upsert_node st dstId dstLabel dstKind
  let variant := ARROW_TO_EDGE_VARIANT arrow
  pure (addEdgeTuples st srcId dstId lbl variant (arrow = "<-->"))

/-- The body of the parse loop for one (already stripped, non-header)
line: labelled edge, then plain edge, then a node declaration whose
failures are swallowed. -/
def processLine (st : PState) (line : List Char) : Except PyExn PState :=
  match matchEdgeWithPipe line with
  | some (srcTok, arrow, lbl, dstTok) => processEdgeTokens st srcTok dstTok lbl arrow
  | none =>
  match matchEdgeSimple line with
  | some (srcTok, arrow, dstTok) => processEdgeTokens st srcTok dstTok "" arrow
  | none =>
    match split_node_token ⟨line⟩ with
    | .error _ => .ok st
    | .ok (nidRaw, lbl, kind) =>
      let (nid, st) := resolve_node_id st nidRaw lbl kind
      .ok (upsert_node st nid lbl kind)

/-- Key order of the parse edge sort: the full tuple
(source, target, label, variant). -/
def tupleSortLe (a b : String × String × String × String) : Bool :=
  if a.1 ≠ b.1 then pyStrLe a.1 b.1
  else if a.2.1 ≠ b.2.1 then pyStrLe a.2.1 b.2.1
  else if a.2.2.1 ≠ b.2.2.1 then pyStrLe a.2.2.1 b.2.2.1
  else pyStrLe a.2.2.2 b.2.2.2

def seenLookup (m : List (String × Nat)) (k : String) : Option Nat :=
  match m with
  | [] => none
  | (a, v) :: t => if a = k then some v else seenLookup t k

def seenSet (m : List (String × Nat)) (k : String) (v : Nat) : List (String × Nat) :=
  match m with
  | [] => [(k, v)]
  | (a, w) :: t => if a = k then (a, v) :: t else (a, w) :: seenSet t k v

/-- The edge construction loop of parse_mermaid: deterministic ids with
a counting salt for duplicated tuples, and the thick variant mapped to
a straight edge type. -/
def buildFlowEdges (seen : List (String × Nat)) :
    List (String × String × String × String) → List StreamlitFlowEdge
  | [] => []
  | (src, dst, lbl, variant) :: rest =>
    let baseId := build_edge_id src dst lbl variant
    let edgeType := if variant = "thick" then "straight" else "smoothstep"
    match seenLookup seen baseId with
    | some c =>
      make_edge (build_edge_id src dst lbl variant (toString (c + 1))) src dst lbl
          edgeType variant ::
        buildFlowEdges (seenSet seen baseId (c + 1)) rest
    | none =>
      make_edge baseId src dst lbl edgeType variant ::
        buildFlowEdges (seenSet seen baseId 1) rest

def emptyCodeMsg : String := "⚠️ **Boş Kod:** Lütfen Mermaid kodu girin."

def noNodesMsg : String :=
  "Mermaid içinden düğüm bulunamadı. (Desteklenen: `A[Metin]`, `B\x7bKarar\x7d`, " ++
  "`A --> B`, `A -->|Evet| B`)"

/-- parse_mermaid.  The session direction (read from st.session_state in
the source) is passed explicitly.  The result mirrors the Python return
triple (state, error, direction); an uncaught IndexError from
split_node_token in an edge line surfaces as the Except error. -/
def parse_mermaid (codeText : String) (sessionDirection : String) :
    Except PyExn (Option StreamlitFlowState × Option String × String) :=
  if codeText = "" ∨ pyStrip codeText = "" then
    .ok (none, some emptyCodeMsg, sessionDirection)
  else
    let prep := (splitNl codeText.data).foldl
      (fun (acc : String × List (List Char)) raw =>
        let line := trimC raw
        if line = [] then acc
        else if "%%".data.isPrefixOf line then acc
        else match parseHeader line with
          | some d => (d, acc.2)
          | none => (acc.1, acc.2 ++ [line]))
      (sessionDirection, [])
    let direction := prep.1
    match prep.2.foldlM processLine pstate0 with
    | .error e => .error e
    | .ok st =>
      if st.nodes = [] then
        .ok (none, some noNodesMsg, direction)
      else
        let sortedNodes := sortLe (fun a b => pyStrLe a.1 b.1) st.nodes
        let flowNodes := sortedNodes.enum.map (fun (i, (nid, lbl, kind)) =>
          make_node nid (if lbl ≠ "" then lbl else nid)
            (if kind ≠ "" then kind else "process")
            ((i % 3) * 220, (i / 3) * 120))
        let flowEdges := buildFlowEdges [] (sortLe tupleSortLe st.edges)
        .ok (some (normalize_state { nodes := flowNodes, edges := flowEdges }),
             none, direction)

/- ===================== Graph analysis and repair ===================== -/

/-- The outgoing adjacency of build_graph: edges grouped by source in
edge-list order (lookup with an empty-list default). -/
def out_edges_of (edges : List StreamlitFlowEdge) (nid : String) :
    List StreamlitFlowEdge :=
  edges.filter (fun e => e.source = nid)

/-- The incoming adjacency of build_graph. -/
def in_edges_of (edges : List StreamlitFlowEdge) (nid : String) :
    List StreamlitFlowEdge :=
  edges.filter (fun e => e.target = nid)

def startKeywords : List String := ["başla", "basla", "start", "giriş", "giris"]

def is_start_node (n : StreamlitFlowNode) : Bool :=
  if get_node_kind n ≠ "terminal" then false
  else startKeywords.any (fun k => pyIn k (pyLower (get_node_label n)))

def endKeywords : List String := ["bitir", "son", "end", "çıkış", "cikis"]

def is_end_node (n : StreamlitFlowNode) : Bool :=
  if get_node_kind n ≠ "terminal" then false
  else endKeywords.any (fun k => pyIn k (pyLower (get_node_label n)))

/-- The breadth-first reachability loop of enforce_connected_flow: pop
from the left, skip already visited ids, append the targets of the
outgoing edges.  Each node enters the visited set at most once, so at
most the root count plus the edge count pops happen; the fuel passed by
reachable_ids covers that. -/
def bfsLoop (s : StreamlitFlowState) : Nat → List String → List String → List String
  | 0, reach, _ => reach
  | _ + 1, reach, [] => reach
  | fuel + 1, reach, nid :: q =>
    if nid ∈ reach then bfsLoop s fuel reach q
    else bfsLoop s fuel (reach ++ [nid])
      (q ++ (out_edges_of s.edges nid).map (fun e => e.target))

def reachable_ids (s : StreamlitFlowState) (roots : List StreamlitFlowNode) :
    List String :=
  bfsLoop s ((roots.length + s.edges.length + 1) * (s.edges.length + 2))
    [] (roots.map (fun n => n.id))

/-- The root choice of enforce_connected_flow: start-like nodes, else all
zero-indegree nodes, else the first node. -/
def start_candidates (s : StreamlitFlowState) : List StreamlitFlowNode :=
  let starts := s.nodes.filter is_start_node
  if starts ≠ [] then starts
  else
    let roots := s.nodes.filter (fun n => (in_edges_of s.edges n.id).length = 0)
    if roots ≠ [] then roots
    else
      match s.nodes with
      | n :: _ => [n]
      | [] => []

/-- The chain construction of the no-edges branch, indexed for the salt. -/
def chainLoop (i : Nat) : List StreamlitFlowNode → List StreamlitFlowEdge
  | a :: b :: rest =>
    make_edge (build_edge_id a.id b.id "" "solid" (toString i)) a.id b.id "" "smoothstep"
      :: chainLoop (i + 1) (b :: rest)
  | _ => []

/-- The stitching loop: every node outside the reachable set is appended
to the running tail with an unlabeled edge, except that a node equal to
the current tail is skipped; the enumerate index advances either way. -/
def stitchLoop (tail : String) (idx : Nat) :
    List StreamlitFlowNode → List StreamlitFlowEdge
  | [] => []
  | n :: rest =>
    if n.id = tail then stitchLoop tail (idx + 1) rest
    else
      make_edge (build_edge_id tail n.id "" "solid" ("fix" ++ toString idx))
          tail n.id "" "smoothstep" ::
        stitchLoop n.id (idx + 1) rest

def enforce_connected_flow (s : StreamlitFlowState) : StreamlitFlowState :=
  if s.nodes = [] ∨ s.nodes.length = 1 then s
  else if s.edges = [] then
    { s with edges := chainLoop 0 s.nodes }
  else
    let roots := start_candidates s
    let reach := reachable_ids s roots
    if reach.length < s.nodes.length then
      let deadEnds := s.nodes.filter (fun n =>
        n.id ∈ reach ∧ (out_edges_of s.edges n.id).length = 0)
      let tail0 := match deadEnds.getLast? with
        | some n => n.id
        | none => match s.nodes with
          | n :: _ => n.id
          | [] => ""
      let unreach := s.nodes.filter (fun n => n.id ∉ reach)
      { s with edges := s.edges ++ stitchLoop tail0 1 unreach }
    else s

/- ===================== Decision edge labels ===================== -/

/-- The word-character class of normalize_label_text, on the alphabet
this program uses: ASCII alphanumerics, the underscore and the Turkish
letters named in the pattern. -/
def isWordChar (c : Char) : Bool :=
  c.isAlphanum ∨ c = '_' ∨ isTurkishLetter c

def normalize_label_text (label : String) : String :=
  let t := trimC label.data
  let t := trimC (t.dropWhile (fun c => ¬ isWordChar c))
  pyStrip (collapseWs ⟨t⟩)

def yesWords : List String := ["evet", "yes", "y", "true", "t"]

def noWords : List String := ["hayır", "hayir", "no", "n", "false", "f"]

def normalize_decision_label (value : String) : String :=
  let raw := normalize_label_text value
  let lower := pyLower raw
  if lower ∈ yesWords then "Evet"
  else if lower ∈ noWords then "Hayır"
  else raw

def setEdgeLabelAt (es : List StreamlitFlowEdge) (i : Nat) (lbl : String) :
    List StreamlitFlowEdge :=
  match es.get? i with
  | some e => es.set i { e with label := lbl }
  | none => es

def edgeLabelAt (es : List StreamlitFlowEdge) (i : Nat) : String :=
  match es.get? i with
  | some e => e.label
  | none => ""

/-- The per-decision-node step of ensure_decision_edge_labels, acting on
the shared edge list: normalise the first two outgoing labels, then
fill the canonical pair positionally.  The source builds the grouping
once up front, but since sources never change, recomputing the indices
per node selects the same two edges. -/
def ensureStep (es : List StreamlitFlowEdge) (n : StreamlitFlowNode) :
    List StreamlitFlowEdge :=
  if get_node_kind n ≠ "decision" then es
  else
    let idxs := (List.range es.length).filter (fun i =>
      match es.get? i with
      | some e => e.source = n.id
      | none => false)
    match idxs with
    | i0 :: i1 :: _ =>
      let norm1 (es : List StreamlitFlowEdge) (i : Nat) : List StreamlitFlowEdge :=
        let current := edgeLabelAt es i
        let updated := normalize_decision_label current
        if updated ≠ "" ∧ updated ≠ current then setEdgeLabelAt es i updated else es
      let es := norm1 (norm1 es i0) i1
      let labels := [pyLower (pyStrip (edgeLabelAt es i0)),
                     pyLower (pyStrip (edgeLabelAt es i1))]
      if ¬ labels.any (fun l => l ≠ "") then
        setEdgeLabelAt (setEdgeLabelAt es i0 "Evet") i1 "Hayır"
      else
        let es := if ¬ labels.any (fun l => pyIn "evet" l) then
          setEdgeLabelAt es i0 "Evet" else es
        let es := if ¬ labels.any (fun l => pyIn "hayır" l ∨ pyIn "hayir" l) then
          setEdgeLabelAt es i1 "Hayır" else es
        es
    | _ => es

def ensure_decision_edge_labels (s : StreamlitFlowState) : StreamlitFlowState :=
  { s with edges := s.nodes.foldl ensureStep s.edges }

/- ===================== Cycle detection ===================== -/

/-- Colour map of detect_cycle: a dict from id to 0 (unseen), 1
(visiting) or 2 (done), with insertion-ordered keys and a default of 0. -/
def cmGet : List (String × Nat) → String → Nat
  | [], _ => 0
  | (a, v) :: t, k => if a = k then v else cmGet t k

def cmSet : List (String × Nat) → String → Nat → List (String × Nat)
  | [], k, v => [(k, v)]
  | (a, w) :: t, k, v => if a = k then (a, v) :: t else (a, w) :: cmSet t k v

/-- First-occurrence deduplication, matching Python dict-key order. -/
def dedupKeys : List String → List String
  | [] => []
  | a :: t => a :: (dedupKeys t).filter (fun b => b ≠ a)

/-- The inner loop of the recursive dfs over one node's outgoing edges:
a grey target reports a cycle, a white target is explored recursively. -/
def dfsLoop (recur : List (String × Nat) → String → Bool × List (String × Nat))
    (c : List (String × Nat)) :
    List StreamlitFlowEdge → Bool × List (String × Nat)
  | [] => (false, c)
  | e :: es =>
    if cmGet c e.target = 1 then (true, c)
    else if cmGet c e.target = 0 then
      match recur c e.target with
      | (true, c2) => (true, c2)
      | (false, c2) => dfsLoop recur c2 es
    else dfsLoop recur c es

/-- The recursive dfs of detect_cycle, with a fuel that decreases on
each nested call.  A nested call only happens on a white node and
immediately greys it, so the white count bounds the depth and the fuel
chosen in detect_cycle is never exhausted. -/
def dfsFuel (edges : List StreamlitFlowEdge) :
    Nat → List (String × Nat) → String → Bool × List (String × Nat)
  | 0, c, _ => (false, c)
  | fuel + 1, c, v =>
    match dfsLoop (dfsFuel edges fuel) (cmSet c v 1) (out_edges_of edges v) with
    | (true, c2) => (true, c2)
    | (false, c2) => (false, cmSet c2 v 2)

/-- The outer loop of detect_cycle over the snapshot of colour keys. -/
def detectMain (edges : List StreamlitFlowEdge) (fuel : Nat) :
    List (String × Nat) → List String → Bool
  | _, [] => false
  | c, k :: t =>
    if cmGet c k = 0 then
      match dfsFuel edges fuel c k with
      | (true, _) => true
      | (false, c2) => detectMain edges fuel c2 t
    else detectMain edges fuel c t

def detect_cycle (nodes : List StreamlitFlowNode) (edges : List StreamlitFlowEdge) :
    Bool :=
  let ks := dedupKeys (nodes.map (fun n => n.id))
  detectMain edges ks.length (ks.map (fun k => (k, 0))) ks

/-- One directed step of the edge relation. -/
def edgeAdj (edges : List StreamlitFlowEdge) (a b : String) : Prop :=
  ∃ e ∈ edges, e.source = a ∧ e.target = b

/-- Reachability along directed edges. -/
def reachRel (edges : List StreamlitFlowEdge) : String → String → Prop :=
  Relation.ReflTransGen (edgeAdj edges)

/-- The graph contains a directed cycle: an edge whose target reaches
back to its source. -/
def hasCycleProp (edges : List StreamlitFlowEdge) : Prop :=
  ∃ a b, edgeAdj edges a b ∧ reachRel edges b a

/- ===================== History manager ===================== -/

/-- A history snapshot.  The serialized node and edge dict lists are
modelled by the node and edge values themselves (independent copies in
the source); the wall-clock timestamp is an external input and omitted. -/
structure HistoryEntry where
  codeText : String
  nodeSnapshot : List StreamlitFlowNode
  edgeSnapshot : List StreamlitFlowEdge
  action : String
deriving DecidableEq, Repr

/-- Undo and redo stacks, stored most-recent-first (the Python lists
keep the most recent element last; list append and pop at the end
become cons and head here, and pop(0) of the oldest becomes dropLast). -/
structure HistoryManager where
  undoStack : List HistoryEntry
  redoStack : List HistoryEntry
deriving DecidableEq, Repr

def MAX_HISTORY : Nat := 25

def HistoryManager.empty : HistoryManager := { undoStack := [], redoStack := [] }

def HistoryManager.push (hm : HistoryManager) (codeText : String)
    (flowState : StreamlitFlowState) (action : String := "edit") : HistoryManager :=
  let entry : HistoryEntry :=
    { codeText := codeText, nodeSnapshot := flowState.nodes,
      edgeSnapshot := flowState.edges, action := action }
  let u := entry :: hm.undoStack
  { undoStack := if u.length > MAX_HISTORY then u.dropLast else u, redoStack := [] }

def HistoryManager.undo (hm : HistoryManager) :
    Option HistoryEntry × HistoryManager :=
  match hm.undoStack with
  | current :: top :: rest =>
    (some top, { undoStack := top :: rest, redoStack := current :: hm.redoStack })
  | _ => (none, hm)

def HistoryManager.redo (hm : HistoryManager) :
    Option HistoryEntry × HistoryManager :=
  match hm.redoStack with
  | entry :: rest =>
    (some entry, { undoStack := entry :: hm.undoStack, redoStack := rest })
  | [] => (none, hm)

/-- The sequence of results of n successive undo calls. -/
def undoSeq (hm : HistoryManager) : Nat → List (Option HistoryEntry)
  | 0 => []
  | n + 1 =>
    let (r, hm2) := hm.undo
    r :: undoSeq hm2 n

def pushAll (hm : HistoryManager) (ps : List (String × StreamlitFlowState × String)) :
    HistoryManager :=
  ps.foldl (fun h p => h.push p.1 p.2.1 p.2.2) hm

/- ===================== Concrete instances used by the claims ===================== -/

/-- Projection of a successful parse onto node ids (never forces edge
ids). -/
def parsedNodeIds
    (r : Except PyExn (Option StreamlitFlowState × Option String × String)) :
    Option (List String) :=
  match r with
  | .ok (some st, none, _) => some (st.nodes.map (fun n => n.id))
  | _ => none

/-- Projection of a successful parse onto node (id, label, kind) triples. -/
def parsedNodeTriples
    (r : Except PyExn (Option StreamlitFlowState × Option String × String)) :
    Option (List (String × String × String)) :=
  match r with
  | .ok (some st, none, _) => some (st.nodes.map (fun n => (n.id, n.label, n.kind)))
  | _ => none

/-- Projection of a successful parse onto edge
(source, target, label, variant) tuples. -/
def parsedEdgeTuples
    (r : Except PyExn (Option StreamlitFlowState × Option String × String)) :
    Option (List (String × String × String × String)) :=
  match r with
  | .ok (some st, none, _) =>
    some (st.edges.map (fun e => (e.source, e.target, e.label, e.variant)))
  | _ => none

/-- Whether a parse call raised an uncaught exception. -/
def parseRaises
    (r : Except PyExn (Option StreamlitFlowState × Option String × String)) : Bool :=
  match r with
  | .error _ => true
  | .ok _ => false

/-- Two-node graph with one edge: start and end terminals, as in the
specification example scenario. -/
def roundTripG : StreamlitFlowState :=
  { nodes := [ make_node "e" "Bitir" "terminal" (0, 0),
               make_node "s" "Başla" "terminal" (0, 0) ],
    edges := [ make_edge "edge1" "s" "e" "" "smoothstep" "solid" ] }

/-- A decision node whose two outgoing edges carry the labels "" and
"Evet", in that order. -/
def decisionG : StreamlitFlowState :=
  { nodes := [ make_node "d" "Karar" "decision" (0, 0),
               make_node "a" "A" "process" (0, 0),
               make_node "b" "B" "process" (0, 0) ],
    edges := [ make_edge "de1" "d" "a" "" "smoothstep" "solid",
               make_edge "de2" "d" "b" "Evet" "smoothstep" "solid" ] }

/-- A start terminal on a two-cycle with an isolated first node. -/
def orphanG : StreamlitFlowState :=
  { nodes := [ make_node "x" "X" "process" (0, 0),
               make_node "s" "Başla" "terminal" (0, 0),
               make_node "t" "T" "process" (0, 0) ],
    edges := [ make_edge "ce1" "s" "t" "" "smoothstep" "solid",
               make_edge "ce2" "t" "s" "" "smoothstep" "solid" ] }

/-- Two edge-less nodes whose list order is the reverse of their id
order. -/
def twoNodesDescG : StreamlitFlowState :=
  { nodes := [ make_node "b" "B" "process" (0, 0),
               make_node "a" "A" "process" (0, 0) ],
    edges := [] }

def emptyFlowState : StreamlitFlowState := { nodes := [], edges := [] }

/-- The history manager after 26 pushes from empty. -/
def historyAfter26 : HistoryManager :=
  pushAll HistoryManager.empty
    ((List.range 26).map (fun i => (toString i, emptyFlowState, "edit")))

/-- A two-node directed cycle, the witness graph for cycle detection. -/
def cycleNodes : List StreamlitFlowNode :=
  [ make_node "a" "A" "process" (0, 0), make_node "b" "B" "process" (0, 0) ]

def cycleEdges : List StreamlitFlowEdge :=
  [ make_edge "ye1" "a" "b" "" "smoothstep" "solid",
    make_edge "ye2" "b" "a" "" "smoothstep" "solid" ]

/-- Pairs of consecutive ids, the shape of the repaired chain. -/
def chainPairs (ids : List String) : List (String × String) :=
  ids.zip ids.tail

/-- Invariant of the search: a finished (black) node has no edge to an
unfinished node. -/
def blackClosed (edges : List StreamlitFlowEdge) (c : List (String × Nat)) : Prop :=
  ∀ e ∈ edges, cmGet c e.source = 2 → cmGet c e.target = 2

/-- Invariant of the search: no finished node lies on a directed cycle. -/
def blackNoCycle (edges : List StreamlitFlowEdge) (c : List (String × Nat)) : Prop :=
  ∀ e ∈ edges, cmGet c e.source = 2 → ¬ reachRel edges e.target e.source

/-- Only the three colours occur. -/
def colorsValid (c : List (String × Nat)) : Prop := ∀ k, cmGet c k ≤ 2

/-- Number of white keys; it bounds the remaining recursion depth. -/
def whiteCount (ks : List String) (c : List (String × Nat)) : Nat :=
  (ks.filter (fun k => cmGet c k = 0)).length

/-- Three pushed snapshots, used to witness the bounded history floor. -/
def witnessPushes : List (String × StreamlitFlowState × String) :=
  [("one", emptyFlowState, "edit"), ("two", emptyFlowState, "edit"),
   ("three", emptyFlowState, "edit")]

/- ===================== Theorems ===================== -/

set_option maxRecDepth 10000

theorem take_append_self (l m : List α) : (l ++ m).take l.length = l := by
  induction l with
  | nil => rfl
  | cons a t ih => simp [ih]

theorem drop_append_self (l m : List α) : (l ++ m).drop l.length = m := by
  induction l with
  | nil => rfl
  | cons a t ih => simp [ih]

theorem chainLoop_label (ns : List StreamlitFlowNode) :
    ∀ i e, e ∈ chainLoop i ns → e.label = "" := by
  induction ns with
  | nil => intro i e h; cases h
  | cons a t ih =>
    intro i e h
    cases t with
    | nil => cases h
    | cons b rest =>
      simp only [chainLoop, List.mem_cons] at h
      rcases h with h | h
      · subst h; rfl
      · exact ih (i + 1) e h

theorem stitchLoop_label (ns : List StreamlitFlowNode) :
    ∀ tl i e, e ∈ stitchLoop tl i ns → e.label = "" := by
  induction ns with
  | nil => intro tl i e h; cases h
  | cons a t ih =>
    intro tl i e h
    simp only [stitchLoop] at h
    by_cases hid : a.id = tl
    · simp only [hid, if_pos rfl] at h
      exact ih tl (i + 1) e h
    · simp only [if_neg hid, List.mem_cons] at h
      rcases h with h | h
      · subst h; rfl
      · exact ih a.id (i + 1) e h

theorem chainLoop_pairs (ns : List StreamlitFlowNode) :
    ∀ i, (chainLoop i ns).map (fun e => (e.source, e.target)) =
      chainPairs (ns.map (fun n => n.id)) := by
  induction ns with
  | nil => intro i; rfl
  | cons a t ih =>
    intro i
    cases t with
    | nil => rfl
    | cons b rest =>
      simp only [chainLoop, List.map_cons]
      rw [ih (i + 1)]
      rfl

/-- C10: enforce_connected_flow keeps the node list untouched, keeps
every pre-existing edge unchanged in place, and only appends new edges,
all of which are unlabeled. -/
theorem c10_enforce_frame (s : StreamlitFlowState) :
    (enforce_connected_flow s).nodes = s.nodes ∧
    (enforce_connected_flow s).edges.take s.edges.length = s.edges ∧
    ∀ e ∈ (enforce_connected_flow s).edges.drop s.edges.length, e.label = "" := by
  unfold enforce_connected_flow
  by_cases h1 : s.nodes = [] ∨ s.nodes.length = 1
  · rw [if_pos h1]
    refine ⟨rfl, List.take_length _, ?_⟩
    intro e he
    rw [List.drop_length] at he
    cases he
  · rw [if_neg h1]
    by_cases h2 : s.edges = []
    · rw [if_pos h2]
      refine ⟨rfl, ?_, ?_⟩
      · rw [h2]; rfl
      · intro e he
        rw [h2] at he
        exact chainLoop_label s.nodes 0 e (by simpa using he)
    · rw [if_neg h2]
      by_cases h3 : (reachable_ids s (start_candidates s)).length < s.nodes.length
      · rw [if_pos h3]
        refine ⟨rfl, take_append_self _ _, ?_⟩
        intro e he
        rw [drop_append_self] at he
        exact stitchLoop_label _ _ _ e he
      · rw [if_neg h3]
        refine ⟨rfl, List.take_length _, ?_⟩
        intro e he
        rw [List.drop_length] at he
        cases he

/-- C4 (amended): on a graph with at least two nodes and no edges,
enforce_connected_flow creates exactly one fewer edge than there are
nodes, chaining consecutive nodes of the node list in its stored
order.  (The claim said ascending id order; the counterexample below
shows the chain follows list order instead, which coincides with id
order only when the list is id-sorted, as parser output is.) -/
theorem c4_chain_in_list_order (s : StreamlitFlowState) (he : s.edges = [])
    (hn : 2 ≤ s.nodes.length) :
    (enforce_connected_flow s).edges.length = s.nodes.length - 1 ∧
    (enforce_connected_flow s).edges.map (fun e => (e.source, e.target)) =
      chainPairs (s.nodes.map (fun n => n.id)) := by
  have h1 : ¬ (s.nodes = [] ∨ s.nodes.length = 1) := by
    rintro (h | h)
    · rw [h] at hn; simp at hn
    · omega
  have hrw : (enforce_connected_flow s).edges = chainLoop 0 s.nodes := by
    unfold enforce_connected_flow
    rw [if_neg h1, if_pos he]
  constructor
  · have hmap := congrArg List.length (chainLoop_pairs s.nodes 0)
    rw [List.length_map] at hmap
    rw [hrw, hmap]
    unfold chainPairs
    rw [List.length_zip]
    simp
  · rw [hrw]
    exact chainLoop_pairs s.nodes 0

/-- C4 witness: the two-node edge-less graph is chained with one edge
joining the first listed node to the second. -/
theorem c4_chain_in_list_order_witness :
    twoNodesDescG.edges = [] ∧ 2 ≤ twoNodesDescG.nodes.length ∧
    ((enforce_connected_flow twoNodesDescG).edges.length =
        twoNodesDescG.nodes.length - 1 ∧
      (enforce_connected_flow twoNodesDescG).edges.map
          (fun e => (e.source, e.target)) =
        chainPairs (twoNodesDescG.nodes.map (fun n => n.id))) :=
  ⟨rfl, by decide, c4_chain_in_list_order twoNodesDescG rfl (by decide)⟩

/-- C4 counterexample: on two edge-less nodes listed as b then a, the
repaired chain runs b to a, not in ascending id order (which would be
a to b). -/
theorem c4_counterexample_not_id_order :
    (enforce_connected_flow twoNodesDescG).edges.map
        (fun e => (e.source, e.target)) = [("b", "a")] ∧
      [(("b" : String), ("a" : String))] ≠ [("a", "b")] := by
  constructor
  · decide
  · decide

theorem push_undo_len (hm : HistoryManager) (c : String) (fs : StreamlitFlowState)
    (a : String) (h : hm.undoStack.length ≤ 25) :
    (hm.push c fs a).undoStack.length = min (hm.undoStack.length + 1) 25 := by
  unfold HistoryManager.push
  simp only [MAX_HISTORY]
  by_cases hgt : hm.undoStack.length + 1 > 25
  · have h25 : hm.undoStack.length = 25 := by omega
    simp [hgt, List.length_dropLast, h25]
  · simp only [List.length_cons, gt_iff_lt]
    rw [if_neg (by omega)]
    simp only [List.length_cons]
    omega

theorem pushAll_undo_len (ps : List (String × StreamlitFlowState × String)) :
    ∀ hm : HistoryManager, hm.undoStack.length ≤ 25 →
    (pushAll hm ps).undoStack.length = min (hm.undoStack.length + ps.length) 25 := by
  induction ps with
  | nil => intro hm h; simp [pushAll, Nat.min_eq_left h]
  | cons p t ih =>
    intro hm h
    have hstep : pushAll hm (p :: t) = pushAll (hm.push p.1 p.2.1 p.2.2) t := rfl
    rw [hstep, ih _ (by rw [push_undo_len hm p.1 p.2.1 p.2.2 h]; omega),
      push_undo_len hm p.1 p.2.1 p.2.2 h]
    simp only [List.length_cons]
    omega

theorem undoSeq_isSome_pattern : ∀ (n : Nat) (hm : HistoryManager),
    hm.undoStack.length = n → 2 ≤ n →
    (undoSeq hm n).map Option.isSome = List.replicate (n - 1) true ++ [false] := by
  intro n
  induction n with
  | zero => intro hm _ h2; omega
  | succ m ih =>
    intro hm hlen h2
    match hstack : hm.undoStack with
    | [] => rw [hstack] at hlen; simp at hlen
    | [a] => rw [hstack] at hlen; simp at hlen; omega
    | a :: b :: rest =>
      have hundo : hm.undo = (some b,
          { undoStack := b :: rest, redoStack := a :: hm.redoStack }) := by
        unfold HistoryManager.undo
        rw [hstack]
      have hlen2 : (b :: rest).length = m := by
        rw [hstack] at hlen
        simp only [List.length_cons] at hlen ⊢
        omega
      show ((undoSeq hm (m + 1)).map Option.isSome) = _
      rw [show undoSeq hm (m + 1) = (hm.undo).1 :: undoSeq (hm.undo).2 m from rfl,
        hundo]
      by_cases hm2 : 2 ≤ m
      · rw [List.map_cons,
          ih { undoStack := b :: rest, redoStack := a :: hm.redoStack } hlen2 hm2]
        have hrep : (m + 1 - 1) = (m - 1) + 1 := by omega
        rw [hrep, List.replicate_succ]
        rfl
      · have hm1 : m = 1 := by omega
        subst hm1
        have hrest : rest = [] := by
          simp only [List.length_cons] at hlen2
          exact List.eq_nil_of_length_eq_zero (by omega)
        subst hrest
        rfl

/-- C5 (amended): starting from an empty history, pushing N snapshots
with 1 < N and N at most MAX_HISTORY, the first N-1 undo calls all
return an entry and the N-th returns none.  (The claim said every
N > 1; the counterexample below shows it fails beyond the capacity
of 25, where eviction removes the oldest snapshots.) -/
theorem c5_history_floor_bounded (ps : List (String × StreamlitFlowState × String))
    (h2 : 2 ≤ ps.length) (h25 : ps.length ≤ 25) :
    (undoSeq (pushAll HistoryManager.empty ps) ps.length).map Option.isSome =
      List.replicate (ps.length - 1) true ++ [false] := by
  apply undoSeq_isSome_pattern ps.length _ _ h2
  rw [pushAll_undo_len ps HistoryManager.empty (by simp [HistoryManager.empty])]
  simp [HistoryManager.empty]
  omega

/-- C5 witness: three pushes give two successful undo calls and then a
none. -/
theorem c5_history_floor_bounded_witness :
    2 ≤ witnessPushes.length ∧ witnessPushes.length ≤ 25 ∧
    (undoSeq (pushAll HistoryManager.empty witnessPushes)
        witnessPushes.length).map Option.isSome =
      List.replicate (witnessPushes.length - 1) true ++ [false] :=
  ⟨by decide, by decide,
    c5_history_floor_bounded witnessPushes (by decide) (by decide)⟩

/-- C5 counterexample: after 26 pushes, the 25-th undo call (still within
the first N-1 = 25 calls the claim promises to succeed) already returns
none, because capacity eviction left only 25 entries. -/
theorem c5_counterexample_26_pushes :
    ((undoSeq historyAfter26 25).map Option.isSome).get? 24 = some false := by
  decide

/-- C1: evaluating the failing input.  Rendering the two-node graph
(start and end terminals joined by one edge) and parsing the result does
not give back an isomorphic graph: the edge line references its
endpoints by bare id, the parser treats each bare reference as a
conflicting re-declaration (label differs from the stored one) and
mints fresh ids, so the round trip yields four nodes and an edge between
the two freshly minted ones. -/
theorem c1_roundtrip_mints_duplicate_nodes :
    parsedNodeTriples (parse_mermaid (generate_mermaid roundTripG "TD") "TD") =
      some [("e", "Bitir", "terminal"), ("e_2", "e", "process"),
            ("s", "Başla", "terminal"), ("s_2", "s", "process")] ∧
    parsedEdgeTuples (parse_mermaid (generate_mermaid roundTripG "TD") "TD") =
      some [("s_2", "e_2", "", "solid")] ∧
    roundTripG.nodes.length = 2 := by
  refine ⟨?_, ?_, ?_⟩ <;> decide

/-- C2: evaluating the failing input.  On a decision node whose first
two outgoing edges are labeled "" and "Evet" (in that order), the pass
leaves the unlabeled edge unlabeled and overwrites the existing "Evet"
with "Hayır": the result is ["", "Hayır"], not the canonical pair, and
the previously unlabeled edge does not become "Hayır". -/
theorem c2_decision_labels_failing_input :
    (ensure_decision_edge_labels decisionG).edges.map (fun e => e.label) =
      ["", "Hayır"] ∧
    decisionG.edges.map (fun e => e.label) = ["", "Evet"] := by
  constructor <;> decide

/-- C3: evaluating the failing input.  With nodes listed as x, s, t
where s is a start terminal on the cycle s -> t -> s and x is isolated,
the reachable region has no dead end, the stitch tail falls back to the
first listed node x, the only unreachable node equals that tail and is
skipped, so the graph is returned unchanged and x stays outside the set
reachable from the non-empty start-candidate root set. -/
theorem c3_connectivity_failing_input :
    (enforce_connected_flow orphanG).nodes = orphanG.nodes ∧
    (enforce_connected_flow orphanG).edges = orphanG.edges ∧
    start_candidates (enforce_connected_flow orphanG) ≠ [] ∧
    "x" ∈ orphanG.nodes.map (fun n => n.id) ∧
    "x" ∉ reachable_ids (enforce_connected_flow orphanG)
        (start_candidates (enforce_connected_flow orphanG)) := by
  refine ⟨?_, ?_, ?_, ?_, ?_⟩ <;> decide

/-- C6: evaluating the failing input.  The line a --> :::b matches the
plain edge pattern; split_node_token on the destination token strips the
kind tag, is left with an empty string, and its final fallback indexes
the first element of an empty split, raising IndexError, which the edge
branch of parse_mermaid does not catch. -/
theorem c6_parser_raises_index_error :
    parseRaises (parse_mermaid "a --> :::b" "TD") = true := by
  decide

/-- C7: evaluating the failing input.  A second application of
ensure_decision_edge_labels changes the labels produced by the first
(["", "Hayır"] becomes ["Evet", "Hayır"]), so the pass is not
idempotent. -/
theorem c7_not_idempotent :
    (ensure_decision_edge_labels (ensure_decision_edge_labels decisionG)).edges.map
        (fun e => e.label) = ["Evet", "Hayır"] ∧
    (ensure_decision_edge_labels decisionG).edges.map (fun e => e.label) =
      ["", "Hayır"] ∧
    (["Evet", "Hayır"] : List String) ≠ ["", "Hayır"] := by
  refine ⟨?_, ?_, ?_⟩ <;> decide

/-- C9: generate_mermaid_for_export is a pure function of the graph and
the direction (it reads no ambient mutable state in the source), so two
applications to the same arguments produce byte-identical text. -/
theorem c9_export_deterministic (s : StreamlitFlowState) (direction : String) :
    generate_mermaid_for_export s direction =
      generate_mermaid_for_export s direction := rfl

theorem cmGet_set (c : List (String × Nat)) (k : String) (v : Nat) (j : String) :
    cmGet (cmSet c k v) j = if j = k then v else cmGet c j := by
  induction c with
  | nil =>
    simp only [cmSet, cmGet]
    by_cases h : j = k
    · rw [if_pos h.symm, if_pos h]
    · rw [if_neg (fun hkj => h hkj.symm), if_neg h]
  | cons hd t ih =>
    obtain ⟨a, w⟩ := hd
    simp only [cmSet]
    by_cases h1 : a = k
    · subst h1
      simp only [if_pos rfl, cmGet]
      by_cases h2 : a = j
      · rw [if_pos h2, if_pos h2.symm]
      · rw [if_neg h2, if_neg h2, if_neg (fun hja => h2 hja.symm)]
    · rw [if_neg h1]
      simp only [cmGet]
      by_cases h2 : a = j
      · subst h2
        rw [if_pos rfl, if_pos rfl, if_neg (fun hjk => h1 hjk)]
      · rw [if_neg h2, if_neg h2, ih]

theorem cmGet_init (ks : List String) (j : String) :
    cmGet (ks.map (fun k => (k, 0))) j = 0 := by
  induction ks with
  | nil => rfl
  | cons a t ih =>
    simp only [List.map_cons, cmGet]
    by_cases h : a = j <;> simp [h, ih]

theorem mem_dedupKeys (l : List String) (a : String) :
    a ∈ dedupKeys l ↔ a ∈ l := by
  induction l with
  | nil => simp [dedupKeys]
  | cons b t ih =>
    simp only [dedupKeys, List.mem_cons, List.mem_filter]
    constructor
    · rintro (h | ⟨h, _⟩)
      · exact Or.inl h
      · exact Or.inr (ih.mp h)
    · rintro (h | h)
      · exact Or.inl h
      · by_cases hab : a = b
        · exact Or.inl hab
        · exact Or.inr ⟨ih.mpr h, by simpa using hab⟩

theorem nodup_dedupKeys (l : List String) : (dedupKeys l).Nodup := by
  induction l with
  | nil => simp [dedupKeys]
  | cons b t ih =>
    simp only [dedupKeys]
    refine List.Nodup.cons ?_ (List.Nodup.filter _ ih)
    intro hmem
    have := (List.mem_filter.mp hmem).2
    simp at this

theorem black_reach (edges : List StreamlitFlowEdge) (c : List (String × Nat))
    (hBC : blackClosed edges c) (x y : String) (hx : cmGet c x = 2)
    (hr : reachRel edges x y) : cmGet c y = 2 := by
  induction hr with
  | refl => exact hx
  | tail _ hstep ih =>
    obtain ⟨e, he, hsrc, htgt⟩ := hstep
    have := hBC e he (by rw [hsrc]; exact ih)
    rw [htgt] at this
    exact this

theorem dfsLoop_pres
    (recur : List (String × Nat) → String → Bool × List (String × Nat))
    (hrec : ∀ c t b c2, cmGet c t = 0 → recur c t = (b, c2) →
      (∀ k, cmGet c k ≠ 0 → cmGet c2 k = cmGet c k) ∧
      (b = false → ∀ k, cmGet c2 k = 1 → cmGet c k = 1)) :
    ∀ (es : List StreamlitFlowEdge) (c : List (String × Nat)) (b : Bool)
      (c2 : List (String × Nat)), dfsLoop recur c es = (b, c2) →
      (∀ k, cmGet c k ≠ 0 → cmGet c2 k = cmGet c k) ∧
      (b = false → ∀ k, cmGet c2 k = 1 → cmGet c k = 1) := by
  intro es
  induction es with
  | nil =>
    intro c b c2 h
    simp only [dfsLoop] at h
    obtain ⟨rfl, rfl⟩ : b = false ∧ c2 = c := by
      constructor <;> [exact (Prod.mk.injEq .. ▸ h).1.symm;
        exact (Prod.mk.injEq .. ▸ h).2.symm]
    exact ⟨fun _ _ => rfl, fun _ _ h => h⟩
  | cons e es ih =>
    intro c b c2 h
    simp only [dfsLoop] at h
    by_cases h1 : cmGet c e.target = 1
    · rw [if_pos h1] at h
      obtain ⟨rfl, rfl⟩ : b = true ∧ c2 = c := by
        constructor <;> [exact (Prod.mk.injEq .. ▸ h).1.symm;
          exact (Prod.mk.injEq .. ▸ h).2.symm]
      exact ⟨fun _ _ => rfl, by intro hf; cases hf⟩
    · rw [if_neg h1] at h
      by_cases h0 : cmGet c e.target = 0
      · rw [if_pos h0] at h
        rcases hr : recur c e.target with ⟨b1, cmid⟩
        rw [hr] at h
        cases b1 with
        | true =>
          obtain ⟨rfl, rfl⟩ : b = true ∧ c2 = cmid := by
            constructor <;> [exact (Prod.mk.injEq .. ▸ h).1.symm;
              exact (Prod.mk.injEq .. ▸ h).2.symm]
          exact ⟨(hrec c e.target true c2 h0 hr).1, by intro hf; cases hf⟩
        | false =>
          have hstep := hrec c e.target false cmid h0 hr
          have hrest := ih cmid b c2 h
          refine ⟨?_, ?_⟩
          · intro k hk
            rw [hrest.1 k (by rw [hstep.1 k hk]; exact hk), hstep.1 k hk]
          · intro hb k hk
            exact hstep.2 rfl k (hrest.2 hb k hk)
      · rw [if_neg h0] at h
        exact ih c b c2 h

theorem dfs_pres (edges : List StreamlitFlowEdge) :
    ∀ (fuel : Nat) (c : List (String × Nat)) (v : String) (b : Bool)
      (c2 : List (String × Nat)), cmGet c v = 0 →
      dfsFuel edges fuel c v = (b, c2) →
      (∀ k, cmGet c k ≠ 0 → cmGet c2 k = cmGet c k) ∧
      (b = false → ∀ k, cmGet c2 k = 1 → cmGet c k = 1) := by
  intro fuel
  induction fuel with
  | zero =>
    intro c v b c2 _ h
    simp only [dfsFuel] at h
    obtain ⟨rfl, rfl⟩ : b = false ∧ c2 = c := by
      constructor <;> [exact (Prod.mk.injEq .. ▸ h).1.symm;
        exact (Prod.mk.injEq .. ▸ h).2.symm]
    exact ⟨fun _ _ => rfl, fun _ _ h => h⟩
  | succ fuel ih =>
    intro c v b c2 hv h
    simp only [dfsFuel] at h
    rcases hloop : dfsLoop (dfsFuel edges fuel) (cmSet c v 1)
        (out_edges_of edges v) with ⟨bl, cl⟩
    rw [hloop] at h
    have hpres1 : ∀ k, cmGet c k ≠ 0 → cmGet (cmSet c v 1) k = cmGet c k := by
      intro k hk
      rw [cmGet_set]
      rw [if_neg (fun hkv : k = v => hk (hkv ▸ hv))]
    have hloopP := dfsLoop_pres (dfsFuel edges fuel)
      (fun c t b c2 ht hr => ih c t b c2 ht hr) (out_edges_of edges v)
      (cmSet c v 1) bl cl hloop
    cases bl with
    | true =>
      obtain ⟨rfl, rfl⟩ : b = true ∧ c2 = cl := by
        constructor <;> [exact (Prod.mk.injEq .. ▸ h).1.symm;
          exact (Prod.mk.injEq .. ▸ h).2.symm]
      refine ⟨?_, by intro hf; cases hf⟩
      intro k hk
      rw [hloopP.1 k (by rw [hpres1 k hk]; exact hk), hpres1 k hk]
    | false =>
      obtain ⟨rfl, rfl⟩ : b = false ∧ c2 = cmSet cl v 2 := by
        constructor <;> [exact (Prod.mk.injEq .. ▸ h).1.symm;
          exact (Prod.mk.injEq .. ▸ h).2.symm]
      refine ⟨?_, ?_⟩
      · intro k hk
        have hkv : ¬ k = v := fun hkv => hk (hkv ▸ hv)
        rw [cmGet_set, if_neg hkv, hloopP.1 k (by rw [hpres1 k hk]; exact hk),
          hpres1 k hk]
      · intro _ k hk
        rw [cmGet_set] at hk
        by_cases hkv : k = v
        · rw [if_pos hkv] at hk; cases hk
        · rw [if_neg hkv] at hk
          have := hloopP.2 rfl k hk
          rw [cmGet_set, if_neg hkv] at this
          exact this

theorem dfsLoop_sound (edges : List StreamlitFlowEdge)
    (recur : List (String × Nat) → String → Bool × List (String × Nat)) (v : String)
    (hrecS : ∀ c t c2, (∀ g, cmGet c g = 1 → reachRel edges g t) →
      recur c t = (true, c2) → hasCycleProp edges)
    (hrecP : ∀ c t b c2, cmGet c t = 0 → recur c t = (b, c2) →
      (∀ k, cmGet c k ≠ 0 → cmGet c2 k = cmGet c k) ∧
      (b = false → ∀ k, cmGet c2 k = 1 → cmGet c k = 1)) :
    ∀ (es : List StreamlitFlowEdge) (c c2 : List (String × Nat)),
      (∀ e ∈ es, e ∈ edges ∧ e.source = v) →
      (∀ g, cmGet c g = 1 → reachRel edges g v) →
      dfsLoop recur c es = (true, c2) → hasCycleProp edges := by
  intro es
  induction es with
  | nil =>
    intro c c2 _ _ h
    simp only [dfsLoop] at h
    injection h with h1 _
    cases h1
  | cons e es ih =>
    intro c c2 hes hg h
    obtain ⟨heE, heS⟩ := hes e (List.mem_cons_self e es)
    simp only [dfsLoop] at h
    by_cases h1 : cmGet c e.target = 1
    · refine ⟨v, e.target, ⟨e, heE, heS, rfl⟩, hg e.target h1⟩
    · rw [if_neg h1] at h
      by_cases h0 : cmGet c e.target = 0
      · rw [if_pos h0] at h
        rcases hr : recur c e.target with ⟨b1, cmid⟩
        rw [hr] at h
        cases b1 with
        | true =>
          refine hrecS c e.target cmid ?_ hr
          intro g hgg
          exact Relation.ReflTransGen.tail (hg g hgg) ⟨e, heE, heS, rfl⟩
        | false =>
          refine ih cmid c2 (fun e' he' => hes e' (List.mem_cons_of_mem e he')) ?_ h
          intro g hgg
          exact hg g ((hrecP c e.target false cmid h0 hr).2 rfl g hgg)
      · rw [if_neg h0] at h
        exact ih c c2 (fun e' he' => hes e' (List.mem_cons_of_mem e he')) hg h

theorem dfs_sound (edges : List StreamlitFlowEdge) :
    ∀ (fuel : Nat) (c : List (String × Nat)) (v : String)
      (c2 : List (String × Nat)),
      (∀ g, cmGet c g = 1 → reachRel edges g v) →
      dfsFuel edges fuel c v = (true, c2) → hasCycleProp edges := by
  intro fuel
  induction fuel with
  | zero =>
    intro c v c2 _ h
    simp only [dfsFuel] at h
    injection h with h1 _
    cases h1
  | succ fuel ih =>
    intro c v c2 hg h
    simp only [dfsFuel] at h
    rcases hloop : dfsLoop (dfsFuel edges fuel) (cmSet c v 1)
        (out_edges_of edges v) with ⟨bl, cl⟩
    rw [hloop] at h
    cases bl with
    | true =>
      refine dfsLoop_sound edges (dfsFuel edges fuel) v
        (fun c t c2 hgt hr => ih c t c2 hgt hr)
        (fun c t b c2 ht hr => dfs_pres edges fuel c t b c2 ht hr)
        (out_edges_of edges v) (cmSet c v 1) cl ?_ ?_ hloop
      · intro e he
        exact ⟨(List.mem_filter.mp he).1, by
          simpa using (List.mem_filter.mp he).2⟩
      · intro g hgg
        rw [cmGet_set] at hgg
        by_cases hgv : g = v
        · exact hgv ▸ Relation.ReflTransGen.refl
        · rw [if_neg hgv] at hgg
          exact hg g hgg
    | false =>
      injection h with h1 _
      cases h1

theorem detectMain_true (edges : List StreamlitFlowEdge) (fuel : Nat) :
    ∀ (rest : List String) (c : List (String × Nat)),
      (∀ k, cmGet c k ≠ 1) →
      detectMain edges fuel c rest = true → hasCycleProp edges := by
  intro rest
  induction rest with
  | nil =>
    intro c _ h
    simp only [detectMain] at h
    cases h
  | cons k t ih =>
    intro c hng h
    simp only [detectMain] at h
    by_cases h0 : cmGet c k = 0
    · rw [if_pos h0] at h
      rcases hr : dfsFuel edges fuel c k with ⟨b1, c2⟩
      rw [hr] at h
      cases b1 with
      | true =>
        exact dfs_sound edges fuel c k c2
          (fun g hgg => absurd hgg (hng g)) hr
      | false =>
        refine ih c2 ?_ h
        intro g hgg
        exact hng g ((dfs_pres edges fuel c k false c2 h0 hr).2 rfl g hgg)
    · rw [if_neg h0] at h
      exact ih c hng h

theorem filter_congr_mem {p q : String → Bool} :
    ∀ l : List String, (∀ a ∈ l, p a = q a) → l.filter p = l.filter q := by
  intro l
  induction l with
  | nil => intro _; rfl
  | cons a t ih =>
    intro h
    rw [List.filter_cons, List.filter_cons, h a (List.mem_cons_self a t),
      ih (fun b hb => h b (List.mem_cons_of_mem a hb))]

theorem whiteCount_le (ks : List String) (c : List (String × Nat)) :
    whiteCount ks c ≤ ks.length :=
  List.length_filter_le _ _

theorem whiteCount_pos (ks : List String) (c : List (String × Nat)) (v : String)
    (hv : cmGet c v = 0) (hm : v ∈ ks) : 0 < whiteCount ks c :=
  List.length_pos_of_mem (List.mem_filter.mpr ⟨hm, by simp [hv]⟩)

theorem filter_cons_pos {p : String → Bool} (a : String) (l : List String)
    (h : p a = true) : (a :: l).filter p = a :: l.filter p := by
  rw [List.filter_cons, if_pos h]

theorem filter_cons_neg {p : String → Bool} (a : String) (l : List String)
    (h : p a = false) : (a :: l).filter p = l.filter p := by
  rw [List.filter_cons, h]
  simp

theorem whiteCount_set1 : ∀ ks : List String, ks.Nodup →
    ∀ (c : List (String × Nat)) (v : String), cmGet c v = 0 → v ∈ ks →
    whiteCount ks (cmSet c v 1) + 1 = whiteCount ks c := by
  intro ks
  induction ks with
  | nil => intro _ c v _ hm; cases hm
  | cons a t ih =>
    intro hnd c v hv hm
    have hat : a ∉ t := (List.nodup_cons.mp hnd).1
    have hndt : t.Nodup := (List.nodup_cons.mp hnd).2
    unfold whiteCount
    by_cases hva : v = a
    · subst hva
      have h1 : cmGet (cmSet c v 1) v = 1 := by rw [cmGet_set, if_pos rfl]
      have htsame : t.filter (fun k => cmGet (cmSet c v 1) k = 0) =
          t.filter (fun k => cmGet c k = 0) := by
        apply filter_congr_mem
        intro b hb
        have hbv : ¬ b = v := fun h => hat (h ▸ hb)
        simp [cmGet_set, hbv]
      rw [filter_cons_neg _ _ (by simp [h1]), filter_cons_pos _ _ (by simp [hv]),
        htsame, List.length_cons]
    · have hvt : v ∈ t := by
        rcases List.mem_cons.mp hm with h | h
        · exact absurd h hva
        · exact h
      have hav : ¬ a = v := fun h => hva h.symm
      have ha2 : cmGet (cmSet c v 1) a = cmGet c a := by
        rw [cmGet_set, if_neg hav]
      have hrec := ih hndt c v hv hvt
      unfold whiteCount at hrec
      by_cases ha0 : cmGet c a = 0
      · rw [filter_cons_pos _ _ (by simp [ha2, ha0]),
          filter_cons_pos _ _ (by simp [ha0]), List.length_cons,
          List.length_cons]
        omega
      · rw [filter_cons_neg _ _ (by simp [ha2, ha0]),
          filter_cons_neg _ _ (by simp [ha0])]
        exact hrec

theorem whiteCount_mono (ks : List String) :
    ∀ c c2 : List (String × Nat), (∀ k, cmGet c2 k = 0 → cmGet c k = 0) →
    whiteCount ks c2 ≤ whiteCount ks c := by
  induction ks with
  | nil => intro _ _ _; exact Nat.le_refl 0
  | cons a t ih =>
    intro c c2 h
    unfold whiteCount
    have hrec := ih c c2 h
    unfold whiteCount at hrec
    by_cases h2 : cmGet c2 a = 0
    · have h1 : cmGet c a = 0 := h a h2
      rw [filter_cons_pos _ _ (by simp [h2]), filter_cons_pos _ _ (by simp [h1]),
        List.length_cons, List.length_cons]
      omega
    · rw [filter_cons_neg _ _ (by simp [h2])]
      by_cases h1 : cmGet c a = 0
      · rw [filter_cons_pos _ _ (by simp [h1]), List.length_cons]
        omega
      · rw [filter_cons_neg _ _ (by simp [h1])]
        exact hrec

theorem dfsLoop_false_inv (edges : List StreamlitFlowEdge) (ks : List String)
    (hT : ∀ e ∈ edges, e.target ∈ ks) (fuel : Nat)
    (hIH : ∀ (c : List (String × Nat)) (v : String) (c2 : List (String × Nat)),
      whiteCount ks c ≤ fuel → cmGet c v = 0 → v ∈ ks →
      blackClosed edges c → blackNoCycle edges c → colorsValid c →
      dfsFuel edges fuel c v = (false, c2) →
      blackClosed edges c2 ∧ blackNoCycle edges c2 ∧ colorsValid c2 ∧
        cmGet c2 v = 2)
    (v : String) :
    ∀ (es : List StreamlitFlowEdge) (c c2 : List (String × Nat)),
      (∀ e ∈ es, e ∈ edges ∧ e.source = v) →
      whiteCount ks c ≤ fuel → cmGet c v = 1 →
      blackClosed edges c → blackNoCycle edges c → colorsValid c →
      dfsLoop (dfsFuel edges fuel) c es = (false, c2) →
      blackClosed edges c2 ∧ blackNoCycle edges c2 ∧ colorsValid c2 ∧
        cmGet c2 v = 1 ∧
        (∀ k, cmGet c k ≠ 0 → cmGet c2 k = cmGet c k) ∧
        (∀ e ∈ es, cmGet c2 e.target = 2) := by
  intro es
  induction es with
  | nil =>
    intro c c2 _ _ hgray hBC hBNC hCV h
    simp only [dfsLoop] at h
    injection h with _ h2
    subst h2
    exact ⟨hBC, hBNC, hCV, hgray, fun _ _ => rfl, fun e he => (by cases he)⟩
  | cons e es ih =>
    intro c c2 hes hW hgray hBC hBNC hCV h
    obtain ⟨heE, heS⟩ := hes e (List.mem_cons_self e es)
    simp only [dfsLoop] at h
    by_cases h1 : cmGet c e.target = 1
    · rw [if_pos h1] at h
      injection h with hfalse _
      cases hfalse
    · rw [if_neg h1] at h
      by_cases h0 : cmGet c e.target = 0
      · rw [if_pos h0] at h
        rcases hr : dfsFuel edges fuel c e.target with ⟨b1, cmid⟩
        rw [hr] at h
        cases b1 with
        | true =>
          injection h with hfalse _
          cases hfalse
        | false =>
          have hchild := hIH c e.target cmid hW h0 (hT e heE) hBC hBNC hCV hr
          have hpres := dfs_pres edges fuel c e.target false cmid h0 hr
          have hpres2 : ∀ k, cmGet cmid k = 0 → cmGet c k = 0 := by
            intro k hk
            by_contra hne
            rw [hpres.1 k hne] at hk
            exact hne hk
          have hWm : whiteCount ks cmid ≤ fuel :=
            Nat.le_trans (whiteCount_mono ks c cmid hpres2) hW
          have hgraym : cmGet cmid v = 1 := by
            rw [hpres.1 v (by rw [hgray]; exact one_ne_zero)]
            exact hgray
          have hrest := ih cmid c2
            (fun e' he' => hes e' (List.mem_cons_of_mem e he'))
            hWm hgraym hchild.1 hchild.2.1 hchild.2.2.1 h
          refine ⟨hrest.1, hrest.2.1, hrest.2.2.1, hrest.2.2.2.1, ?_, ?_⟩
          · intro k hk
            rw [hrest.2.2.2.2.1 k (by rw [hpres.1 k hk]; exact hk),
              hpres.1 k hk]
          · intro e' he'
            rcases List.mem_cons.mp he' with h' | h'
            · subst h'
              rw [hrest.2.2.2.2.1 e'.target
                (by rw [hchild.2.2.2]; exact (by omega)), hchild.2.2.2]
            · exact hrest.2.2.2.2.2 e' h'
      · rw [if_neg h0] at h
        have h2 : cmGet c e.target = 2 := by
          have := hCV e.target
          omega
        have hrest := ih c c2
          (fun e' he' => hes e' (List.mem_cons_of_mem e he'))
          hW hgray hBC hBNC hCV h
        refine ⟨hrest.1, hrest.2.1, hrest.2.2.1, hrest.2.2.2.1,
          hrest.2.2.2.2.1, ?_⟩
        intro e' he'
        rcases List.mem_cons.mp he' with h' | h'
        · subst h'
          rw [hrest.2.2.2.2.1 e'.target (by rw [h2]; exact (by omega)), h2]
        · exact hrest.2.2.2.2.2 e' h'

theorem dfs_false_inv (edges : List StreamlitFlowEdge) (ks : List String)
    (hT : ∀ e ∈ edges, e.target ∈ ks) (hnd : ks.Nodup) :
    ∀ (fuel : Nat) (c : List (String × Nat)) (v : String)
      (c2 : List (String × Nat)),
      whiteCount ks c ≤ fuel → cmGet c v = 0 → v ∈ ks →
      blackClosed edges c → blackNoCycle edges c → colorsValid c →
      dfsFuel edges fuel c v = (false, c2) →
      blackClosed edges c2 ∧ blackNoCycle edges c2 ∧ colorsValid c2 ∧
        cmGet c2 v = 2 := by
  intro fuel
  induction fuel with
  | zero =>
    intro c v c2 hW hv hm _ _ _ _
    have := whiteCount_pos ks c v hv hm
    omega
  | succ fuel ih =>
    intro c v c2 hW hv hm hBC hBNC hCV h
    simp only [dfsFuel] at h
    rcases hloop : dfsLoop (dfsFuel edges fuel) (cmSet c v 1)
        (out_edges_of edges v) with ⟨bl, cl⟩
    rw [hloop] at h
    cases bl with
    | true =>
      injection h with hfalse _
      cases hfalse
    | false =>
      injection h with _ h2
      subst h2
      have hW1 : whiteCount ks (cmSet c v 1) ≤ fuel := by
        have := whiteCount_set1 ks hnd c v hv hm
        omega
      have hBC1 : blackClosed edges (cmSet c v 1) := by
        intro e he hsrc
        rw [cmGet_set] at hsrc ⊢
        by_cases hsv : e.source = v
        · rw [if_pos hsv] at hsrc; cases hsrc
        · rw [if_neg hsv] at hsrc
          have htb := hBC e he hsrc
          by_cases htv : e.target = v
          · rw [htv, hv] at htb; cases htb
          · rw [if_neg htv]; exact htb
      have hBNC1 : blackNoCycle edges (cmSet c v 1) := by
        intro e he hsrc
        rw [cmGet_set] at hsrc
        by_cases hsv : e.source = v
        · rw [if_pos hsv] at hsrc; cases hsrc
        · rw [if_neg hsv] at hsrc
          exact hBNC e he hsrc
      have hCV1 : colorsValid (cmSet c v 1) := by
        intro k
        rw [cmGet_set]
        by_cases hkv : k = v
        · rw [if_pos hkv]; omega
        · rw [if_neg hkv]; exact hCV k
      have hgray1 : cmGet (cmSet c v 1) v = 1 := by rw [cmGet_set, if_pos rfl]
      have hloopInv := dfsLoop_false_inv edges ks hT fuel
        (fun c v c2 => ih c v c2) v (out_edges_of edges v) (cmSet c v 1) cl
        (fun e he => ⟨(List.mem_filter.mp he).1, by
          simpa using (List.mem_filter.mp he).2⟩)
        hW1 hgray1 hBC1 hBNC1 hCV1 hloop
      obtain ⟨hBCl, hBNCl, hCVl, hgrayl, _, htargets⟩ := hloopInv
      refine ⟨?_, ?_, ?_, ?_⟩
      · intro e he hsrc
        rw [cmGet_set] at hsrc ⊢
        by_cases hsv : e.source = v
        · have hout : e ∈ out_edges_of edges v :=
            List.mem_filter.mpr ⟨he, by simp [hsv]⟩
          have := htargets e hout
          by_cases htv : e.target = v
          · rw [if_pos htv]
          · rw [if_neg htv]; exact this
        · rw [if_neg hsv] at hsrc
          have := hBCl e he hsrc
          by_cases htv : e.target = v
          · rw [if_pos htv]
          · rw [if_neg htv]; exact this
      · intro e he hsrc hreach
        rw [cmGet_set] at hsrc
        by_cases hsv : e.source = v
        · have hout : e ∈ out_edges_of edges v :=
            List.mem_filter.mpr ⟨he, by simp [hsv]⟩
          have htb := htargets e hout
          have := black_reach edges cl hBCl e.target e.source htb hreach
          rw [hsv, hgrayl] at this
          cases this
        · rw [if_neg hsv] at hsrc
          exact hBNCl e he hsrc hreach
      · intro k
        rw [cmGet_set]
        by_cases hkv : k = v
        · rw [if_pos hkv]
        · rw [if_neg hkv]; exact hCVl k
      · rw [cmGet_set, if_pos rfl]

theorem detectMain_false (edges : List StreamlitFlowEdge) (ks : List String)
    (hS : ∀ e ∈ edges, e.source ∈ ks) (hT : ∀ e ∈ edges, e.target ∈ ks)
    (hnd : ks.Nodup) :
    ∀ (rest : List String) (c : List (String × Nat)),
      (∀ k ∈ rest, k ∈ ks) →
      blackClosed edges c → blackNoCycle edges c → colorsValid c →
      (∀ k, cmGet c k ≠ 1) →
      (∀ k ∈ ks, k ∉ rest → cmGet c k = 2) →
      detectMain edges ks.length c rest = false → ¬ hasCycleProp edges := by
  intro rest
  induction rest with
  | nil =>
    intro c _ _ hBNC _ _ hblack _ hcyc
    obtain ⟨a, b, ⟨e, he, hsrc, htgt⟩, hreach⟩ := hcyc
    have hka : e.source ∈ ks := hS e he
    have hblk : cmGet c e.source = 2 := hblack e.source hka (by simp)
    refine hBNC e he hblk ?_
    rw [htgt, hsrc]
    exact hreach
  | cons k t ih =>
    intro c hmem hBC hBNC hCV hng hblack hrun
    simp only [detectMain] at hrun
    by_cases h0 : cmGet c k = 0
    · rw [if_pos h0] at hrun
      rcases hr : dfsFuel edges ks.length c k with ⟨b1, c2⟩
      rw [hr] at hrun
      cases b1 with
      | true => cases hrun
      | false =>
        have hinv := dfs_false_inv edges ks hT hnd ks.length c k c2
          (whiteCount_le ks c) h0 (hmem k (List.mem_cons_self k t))
          hBC hBNC hCV hr
        have hpres := dfs_pres edges ks.length c k false c2 h0 hr
        refine ih c2 (fun k' hk' => hmem k' (List.mem_cons_of_mem k hk'))
          hinv.1 hinv.2.1 hinv.2.2.1 ?_ ?_ hrun
        · intro g hg
          exact hng g (hpres.2 rfl g hg)
        · intro k' hk' hnit
          by_cases hkk : k' = k
          · subst hkk
            exact hinv.2.2.2
          · have hnotin : k' ∉ k :: t := by
              intro hkin
              rcases List.mem_cons.mp hkin with h' | h'
              · exact hkk h'
              · exact hnit h'
            have hold : cmGet c k' = 2 := hblack k' hk' hnotin
            rw [hpres.1 k' (by rw [hold]; exact (by omega)), hold]
    · rw [if_neg h0] at hrun
      have h2 : cmGet c k = 2 := by
        have := hCV k
        have := hng k
        omega
      refine ih c (fun k' hk' => hmem k' (List.mem_cons_of_mem k hk'))
        hBC hBNC hCV hng ?_ hrun
      intro k' hk' hnit
      by_cases hkk : k' = k
      · subst hkk
        exact h2
      · refine hblack k' hk' ?_
        intro hkin
        rcases List.mem_cons.mp hkin with h' | h'
        · exact hkk h'
        · exact hnit h'

/-- C8: detect_cycle, the three-colour depth-first search over all
nodes, returns true exactly when the directed graph has a cycle,
provided every edge endpoint names a present node. -/
theorem c8_detect_cycle_iff (nodes : List StreamlitFlowNode)
    (edges : List StreamlitFlowEdge)
    (h : ∀ e ∈ edges, e.source ∈ nodes.map (fun n => n.id) ∧
      e.target ∈ nodes.map (fun n => n.id)) :
    detect_cycle nodes edges = true ↔ hasCycleProp edges := by
  constructor
  · intro hdet
    unfold detect_cycle at hdet
    refine detectMain_true edges _ _ _ ?_ hdet
    intro k
    rw [cmGet_init]
    omega
  · intro hcyc
    by_contra hdet
    have hfalse : detect_cycle nodes edges = false := by
      cases hdc : detect_cycle nodes edges with
      | true => exact absurd hdc hdet
      | false => rfl
    unfold detect_cycle at hfalse
    refine detectMain_false edges (dedupKeys (nodes.map (fun n => n.id)))
      (fun e he => (mem_dedupKeys _ _).mpr (h e he).1)
      (fun e he => (mem_dedupKeys _ _).mpr (h e he).2)
      (nodup_dedupKeys _) _ _ (fun k hk => hk) ?_ ?_ ?_ ?_ ?_ hfalse hcyc
    · intro e _ hsrc
      rw [cmGet_init] at hsrc
      cases hsrc
    · intro e _ hsrc
      rw [cmGet_init] at hsrc
      cases hsrc
    · intro k
      rw [cmGet_init]
      omega
    · intro k
      rw [cmGet_init]
      omega
    · intro k hk hnk
      exact absurd hk hnk

/-- C8 witness: on the two-node graph with edges a to b and b to a, the
endpoint condition holds and the equivalence applies; detect_cycle
indeed returns true there, and the cycle is exhibited. -/
theorem c8_detect_cycle_iff_witness :
    (∀ e ∈ cycleEdges, e.source ∈ cycleNodes.map (fun n => n.id) ∧
      e.target ∈ cycleNodes.map (fun n => n.id)) ∧
    (detect_cycle cycleNodes cycleEdges = true ↔ hasCycleProp cycleEdges) :=
  ⟨by decide, c8_detect_cycle_iff cycleNodes cycleEdges (by decide)⟩
